import Mathlib

/-!
Verification development for the Navitone Omarchy theme color extractor
(`theme-sync/extract-omarchy-colors.py`).

Text is modelled as `List Char` (`Str`).  Python string operations used by
the script (`strip`, `startswith`, `in`, `split`, `readlines`, the two
`re.search` patterns) are embedded as executable Lean functions, and the three
core functions `parse_toml_colors`, `extract_theme_colors` and
`update_navitone_config` are translated from the source.  File I/O is
modelled by passing file contents (and, for the JSON descriptor, the parse
outcome) as explicit arguments.
-/

set_option autoImplicit false

namespace Navitone

abbrev Str := List Char

/-- Abbreviation turning a Lean string literal into our `Str` representation. -/
def lit (s : String) : Str := s.data

/-- The apostrophe / single-quote character. -/
def quoteCh1 : Char := Char.ofNat 39

/-- ASCII whitespace, matching Python `str.strip()` / regex `\s` on the
ASCII range (the script only ever meets ASCII config text). -/
def isSp (c : Char) : Bool :=
  match c with
  | ' ' | '\t' | '\n' | '\r' | '\x0b' | '\x0c' => true
  | _ => false

/-- Python `needle.isPrefixOf`-style check: `line.startswith(pre)`. -/
def isPre : Str → Str → Bool
  | [], _ => true
  | _ :: _, [] => false
  | a :: as, b :: bs => if a = b then isPre as bs else false

/-- Python substring containment: `needle in hay`. -/
def hasSub (n : Str) : Str → Bool
  | [] => isPre n []
  | c :: t => isPre n (c :: t) || hasSub n t

/-- `str.lstrip()` (whitespace). -/
def lstrip (l : Str) : Str := l.dropWhile isSp

/-- `str.rstrip()` (whitespace). -/
def rstrip (l : Str) : Str := (l.reverse.dropWhile isSp).reverse

/-- Python `str.strip()`: drop whitespace from both ends (the order of the
two one-sided strips is immaterial). -/
def pyStrip (l : Str) : Str := lstrip (rstrip l)

/-- Is the character one of the quote characters of Python `strip('"\'')`? -/
def isQuote (c : Char) : Bool := c = '"' || c = quoteCh1

/-- Python `str.strip('"\'')`: drop `"` and `'` characters from both ends. -/
def stripQ (l : Str) : Str :=
  ((l.dropWhile isQuote).reverse.dropWhile isQuote).reverse

/-- Python `line.split('=', 1)`, as the pair (before, after) of the first
`'='`; only used on lines known to contain `'='`. -/
def splitEqAux : Str → Str → Str × Str
  | [], acc => (acc.reverse, [])
  | '=' :: r, acc => (acc.reverse, r)
  | c :: r, acc => splitEqAux r (c :: acc)

def splitEq (l : Str) : Str × Str := splitEqAux l []

/-- Python `content.split(c)` (here used with `'\n'` and `'.'`): the chunks
between occurrences of `c`, separators removed.  `"".split(c) = [""]`. -/
def splitChAux (c : Char) : Str → Str → List Str
  | [], acc => [acc.reverse]
  | x :: r, acc => if x = c then acc.reverse :: splitChAux c r [] else splitChAux c r (x :: acc)

def splitCh (c : Char) (s : Str) : List Str := splitChAux c s []

/-- `key.split('.')[-1] if '.' in key else key` — in both cases the final
dotted segment (`split` always returns a nonempty list, so the two Python
branches coincide). -/
def lastSeg (k : Str) : Str := (splitCh '.' k).getLastD []

/-- The regex character class `[a-fA-F0-9]`. -/
def isHexCh (c : Char) : Bool :=
  ('0' ≤ c && c ≤ '9') || ('a' ≤ c && c ≤ 'f') || ('A' ≤ c && c ≤ 'F')

/-- `{6}` part of the hex regexes: exactly six hex digits must follow. -/
def take6hex (l : Str) : Option Str :=
  match l with
  | c1 :: c2 :: c3 :: c4 :: c5 :: c6 :: _ =>
    if isHexCh c1 && isHexCh c2 && isHexCh c3 && isHexCh c4 && isHexCh c5 && isHexCh c6 then
      some [c1, c2, c3, c4, c5, c6]
    else none
  | _ => none

/-- Try the regex `(?:#|0x)([a-fA-F0-9]{6})` anchored at the start of `l`,
returning the captured six digits.  The `#` and `0x` alternatives start with
distinct characters, so Python's alternation backtracking never matters. -/
def hexAt (l : Str) : Option Str :=
  match l with
  | '#' :: r => take6hex r
  | '0' :: 'x' :: r => take6hex r
  | _ => none

/-- `re.search(r'(?:#|0x)([a-fA-F0-9]{6})', value)`: leftmost match. -/
def searchHex : Str → Option Str
  | [] => none
  | c :: r =>
    match hexAt (c :: r) with
    | some d => some d
    | none => searchHex r

/-- After a matched literal key, the `\s*=\s*["\']?(?:#|0x)([a-fA-F0-9]{6})`
tail of the two raw-text scans.  When a quote is present but the hex part
fails after it, the regex backtracks to the zero-quote alternative, which
then starts at the quote character and necessarily fails too — so consuming
a leading quote greedily is equivalent.  The trailing `["\']?` of the
original pattern is optional and after the capture group, so it can affect
neither acceptance nor the captured digits and is omitted. -/
def kvTail (l : Str) : Option Str :=
  let r2 := l.dropWhile isSp
  match r2 with
  | '=' :: r3 =>
    let r4 := r3.dropWhile isSp
    match r4 with
    | c :: r5 => if isQuote c then hexAt r5 else hexAt r4
    | [] => none
  | _ => none

/-- Try the `key\s*=\s*["\']?(?:#|0x)([a-fA-F0-9]{6})["\']?` pattern anchored
at the start of `s`. -/
def matchKV (key : Str) (s : Str) : Option Str :=
  if isPre key s then kvTail (s.drop key.length) else none

/-- `re.search` with the pattern of `matchKV`: leftmost match wins. -/
def scanKV (key : Str) : Str → Option Str
  | [] => none
  | c :: t =>
    match matchKV key (c :: t) with
    | some d => some d
    | none => scanKV key t

/-! ### Python dicts of strings, in insertion order -/

abbrev AL := List (Str × Str)

/-- Python `d[k] = v` on a string dict: update in place, else append. -/
def aset : AL → Str → Str → AL
  | [], k, v => [(k, v)]
  | (k', v') :: t, k, v => if k' = k then (k', v) :: t else (k', v') :: aset t k v

/-- Key lookup (`d[k]` / membership support). -/
def alook (m : AL) (k : Str) : Option Str :=
  match m with
  | [] => none
  | (k', v') :: t => if k' = k then some v' else alook t k

/-- Python `d.get(k, default)`. -/
def aget (m : AL) (k : Str) (d : Str) : Str := (alook m k).getD d

/-- Python `k in d`. -/
def amem (m : AL) (k : Str) : Bool := (alook m k).isSome

/-! ### `parse_toml_colors`: the line-oriented scanner -/

/-- The section state of `parse_toml_colors` (`current_section`); Python's
`None` is modelled by `Option Sect`. -/
inductive Sect where
  | normal | bright | primary | other
deriving DecidableEq, Repr

/-- Scanner state: current section plus the `normal_colors`, `bright_colors`
and `primary_colors` dicts. -/
structure TomlSt where
  sect : Option Sect
  normal : AL
  bright : AL
  primary : AL
deriving DecidableEq, Repr

/-- One iteration of the `for line in content.split('\n')` loop of
`parse_toml_colors`, faithful to the branch order of the source. -/
def tomlStep (st : TomlSt) (rawLine : Str) : TomlSt :=
  let line := pyStrip rawLine
  if isPre (lit "[colors.normal]") line then { st with sect := some .normal }
  else if isPre (lit "[colors.bright]") line then { st with sect := some .bright }
  else if isPre (lit "[colors.primary]") line then { st with sect := some .primary }
  else if isPre (lit "[") line && !hasSub (lit "colors") line then { st with sect := none }
  else if isPre (lit "[colors.") line then { st with sect := some .other }
  else if isPre (lit "#") line then st
  else if hasSub (lit "=") line && (hasSub (lit "0x") line || hasSub (lit "#") line) then
    let kv := splitEq line
    let key := pyStrip kv.1
    let value := stripQ (pyStrip kv.2)
    match searchHex value with
    | some d =>
      let cleanColor := '#' :: d
      let colorName := lastSeg key
      match st.sect with
      | some .normal => { st with normal := aset st.normal colorName cleanColor }
      | some .bright => { st with bright := aset st.bright colorName cleanColor }
      | some .primary => { st with primary := aset st.primary colorName cleanColor }
      | _ => st
    | none => st
  else st

/-- The full line scan of `parse_toml_colors` over the file content. -/
def scanToml (content : Str) : TomlSt :=
  (splitCh '\n' content).foldl tomlStep ⟨none, [], [], []⟩

/-- The six canonical color names of the normal/bright fill-in loop, in the
source's loop order. -/
def sixColorNames : List Str :=
  [lit "red", lit "green", lit "yellow", lit "blue", lit "magenta", lit "cyan"]

/-- The fill-in loop: `colors = normal_colors.copy()`, then each of the six
canonical names missing from it is copied from `bright_colors` if present. -/
def fillBright (colors : AL) (names : List Str) (bright : AL) : AL :=
  names.foldl
    (fun cs nm =>
      if !amem cs nm && amem bright nm then aset cs nm (aget bright nm []) else cs)
    colors

/-- `parse_toml_colors`, as (merged colors, primary colors).  The file read
cannot fail in this model, so the `except` printing branch is dead. -/
def parse_toml_colors (content : Str) : AL × AL :=
  let st := scanToml content
  (fillBright st.normal sixColorNames st.bright, st.primary)

/-! ### `extract_theme_colors` -/

/-- The dict returned by `extract_theme_colors` (minus the dynamic typing of
the Python dict): theme name, the 6-role colors dict in insertion order, and
background/foreground. -/
structure ExtractRes where
  theme_name : Str
  colors : AL
  background : Str
  foreground : Str
deriving DecidableEq, Repr

/-- The grayscale gradient of the monochrome-degeneration branch. -/
def grayPairs : AL :=
  [(lit "accent", lit "#777777"), (lit "primary", lit "#999999"),
   (lit "secondary", lit "#BBBBBB"), (lit "success", lit "#AAAAAA"),
   (lit "warning", lit "#888888"), (lit "error", lit "#666666")]

/-- The `alacritty.toml` branch of `extract_theme_colors` (lines 219–284 of
the source).  The foreground probed on the monochrome branch (line 230) is
only interpolated into a log message and then overwritten by the
`primary_colors.get('foreground', ...)` assignment, so it does not appear in
the result.  Nothing in this model can raise, so the enclosing
`except Exception` (which would return `None`) is dead. -/
def tomlResolve (name : Str) (content : Str) : ExtractRes :=
  let p := parse_toml_colors content
  let toml_colors := p.1
  let primary_colors := p.2
  let colors : AL :=
    if toml_colors = [] then grayPairs
    else
      [(lit "accent", aget toml_colors (lit "blue") (lit "#6272a4")),
       (lit "primary", aget toml_colors (lit "cyan") (lit "#8be9fd")),
       (lit "secondary", aget toml_colors (lit "magenta") (lit "#ff79c6")),
       (lit "success", aget toml_colors (lit "green") (lit "#50fa7b")),
       (lit "warning", aget toml_colors (lit "yellow") (lit "#f1fa8c")),
       (lit "error", aget toml_colors (lit "red") (lit "#ff5555"))]
  let background := aget primary_colors (lit "background") (lit "#282a36")
  let foreground := aget primary_colors (lit "foreground") (lit "#f8f8f2")
  let background :=
    if primary_colors = [] then
      match scanKV (lit "background") content with
      | some d => '#' :: d
      | none => background
    else background
  let foreground :=
    if primary_colors = [] then
      match scanKV (lit "foreground") content with
      | some d => '#' :: d
      | none => foreground
    else foreground
  ⟨name, colors, background, foreground⟩

/-- JSON values as far as the script manipulates them: strings and string-
keyed objects (the shapes reachable by the claims; other leaf shapes are
never produced by the inputs the claims quantify over). -/
inductive JVal where
  | str : Str → JVal
  | obj : List (Str × JVal) → JVal

/-- Outcome of a fragment of Python code: normal value, a `KeyError`
(caught by `extract_theme_colors`), or an uncaught exception
(`TypeError`/`AttributeError` from indexing or `.get` on a non-dict). -/
inductive POut (α : Type) where
  | ok : α → POut α
  | keyErr : POut α
  | crash : POut α
deriving DecidableEq, Repr

/-- Python `k in v`: key membership on a dict, substring test on a string. -/
def jIn (k : Str) : JVal → Bool
  | .obj fs => fs.any (fun p => p.1 = k)
  | .str s => hasSub k s

/-- Python `v[k]`: dict lookup (`KeyError` when absent), `TypeError` when
`v` is a string. -/
def jIdx (v : JVal) (k : Str) : POut JVal :=
  match v with
  | .obj fs =>
    match fs.find? (fun p => p.1 = k) with
    | some p => .ok p.2
    | none => .keyErr
  | .str _ => .crash

/-- Python `v.get(k, d)` at the positions where the script uses the result
as a string: `AttributeError` on a string receiver; a non-string value found
under `k` (possible in hand-written JSON, exercised by no claim) is also
modelled as an uncaught-error outcome. -/
def jGetS (v : JVal) (k : Str) (d : Str) : POut Str :=
  match v with
  | .obj fs =>
    match fs.find? (fun p => p.1 = k) with
    | some (_, .str s) => .ok s
    | some (_, .obj _) => .crash
    | none => .ok d
  | .str _ => .crash

/-- `'colors' in theme_data and 'terminal' in theme_data['colors']`. -/
def condTerminal (j : JVal) : POut Bool :=
  if jIn (lit "colors") j then
    match jIdx j (lit "colors") with
    | .ok c => .ok (jIn (lit "terminal") c)
    | .keyErr => .keyErr
    | .crash => .crash
  else .ok false

/-- `'apps' in theme_data and 'alacritty' in theme_data['apps']`. -/
def condAlacritty (j : JVal) : POut Bool :=
  if jIn (lit "apps") j then
    match jIdx j (lit "apps") with
    | .ok a => .ok (jIn (lit "alacritty") a)
    | .keyErr => .keyErr
    | .crash => .crash
  else .ok false

/-- `'colors' in theme_data and 'primary' in theme_data['colors']`. -/
def condPrimary (j : JVal) : POut Bool :=
  if jIn (lit "colors") j then
    match jIdx j (lit "colors") with
    | .ok c => .ok (jIn (lit "primary") c)
    | .keyErr => .keyErr
    | .crash => .crash
  else .ok false

/-- Build the six-role colors dict of the structured branch from the chosen
sub-mapping `m`, with the documented per-role fallback constants. -/
def jsonSixFrom (m : JVal) : POut AL :=
  match jGetS m (lit "blue") (lit "#38d6fa") with
  | .ok a =>
    match jGetS m (lit "cyan") (lit "#048ba8") with
    | .ok pr =>
      match jGetS m (lit "magenta") (lit "#d35f5f") with
      | .ok se =>
        match jGetS m (lit "green") (lit "#a9fbd7") with
        | .ok su =>
          match jGetS m (lit "yellow") (lit "#9f87af") with
          | .ok w =>
            match jGetS m (lit "red") (lit "#9c528b") with
            | .ok e =>
              .ok [(lit "accent", a), (lit "primary", pr), (lit "secondary", se),
                   (lit "success", su), (lit "warning", w), (lit "error", e)]
            | .keyErr => .keyErr
            | .crash => .crash
          | .keyErr => .keyErr
          | .crash => .crash
        | .keyErr => .keyErr
        | .crash => .crash
      | .keyErr => .keyErr
      | .crash => .crash
    | .keyErr => .keyErr
    | .crash => .crash
  | .keyErr => .keyErr
  | .crash => .crash

/-- `theme_data['apps']['alacritty']` (both keys already known present). -/
def jAlacritty (j : JVal) : POut JVal :=
  match jIdx j (lit "apps") with
  | .ok a => jIdx a (lit "alacritty")
  | .keyErr => .keyErr
  | .crash => .crash

/-- Lines 170–193 of the source: the `colors` dict of the structured branch. -/
def jsonColors (j : JVal) : POut AL :=
  match condTerminal j with
  | .ok true =>
    match jIdx j (lit "colors") with
    | .ok c =>
      match jIdx c (lit "terminal") with
      | .ok t => jsonSixFrom t
      | .keyErr => .keyErr
      | .crash => .crash
    | .keyErr => .keyErr
    | .crash => .crash
  | .ok false =>
    match condAlacritty j with
    | .ok true =>
      match jAlacritty j with
      | .ok al =>
        match jIdx al (lit "colors") with
        | .ok cs =>
          match jIdx cs (lit "normal") with
          | .ok nm => jsonSixFrom nm
          | .keyErr => .keyErr
          | .crash => .crash
        | .keyErr => .keyErr
        | .crash => .crash
      | .keyErr => .keyErr
      | .crash => .crash
    | .ok false => .ok []
    | .keyErr => .keyErr
    | .crash => .crash
  | .keyErr => .keyErr
  | .crash => .crash

/-- Lines 195–204 of the source: background/foreground of the structured
branch, defaulting to `#000000` / `#ffffff`. -/
def jsonBgFg (j : JVal) : POut (Str × Str) :=
  match condPrimary j with
  | .ok true =>
    match jIdx j (lit "colors") with
    | .ok c =>
      match jIdx c (lit "primary") with
      | .ok p =>
        match jGetS p (lit "background") (lit "#000000") with
        | .ok bg =>
          match jGetS p (lit "foreground") (lit "#ffffff") with
          | .ok fg => .ok (bg, fg)
          | .keyErr => .keyErr
          | .crash => .crash
        | .keyErr => .keyErr
        | .crash => .crash
      | .keyErr => .keyErr
      | .crash => .crash
    | .keyErr => .keyErr
    | .crash => .crash
  | .ok false =>
    match condAlacritty j with
    | .ok true =>
      match jAlacritty j with
      | .ok al =>
        match jIdx al (lit "colors") with
        | .ok cs =>
          match jIdx cs (lit "primary") with
          | .ok p =>
            match jGetS p (lit "background") (lit "#000000") with
            | .ok bg =>
              match jGetS p (lit "foreground") (lit "#ffffff") with
              | .ok fg => .ok (bg, fg)
              | .keyErr => .keyErr
              | .crash => .crash
            | .keyErr => .keyErr
            | .crash => .crash
          | .keyErr => .keyErr
          | .crash => .crash
        | .keyErr => .keyErr
        | .crash => .crash
      | .keyErr => .keyErr
      | .crash => .crash
    | .ok false => .ok (lit "#000000", lit "#ffffff")
    | .keyErr => .keyErr
    | .crash => .crash
  | .keyErr => .keyErr
  | .crash => .crash

/-- The body of the `custom_theme.json` `try` block (lines 166–211): colors
first, then background/foreground, then the returned dict. -/
def jsonPath (name : Str) (j : JVal) : POut ExtractRes :=
  match jsonColors j with
  | .ok colors =>
    match jsonBgFg j with
    | .ok bgfg => .ok ⟨name, colors, bgfg.1, bgfg.2⟩
    | .keyErr => .keyErr
    | .crash => .crash
  | .keyErr => .keyErr
  | .crash => .crash

/-- `extract_theme_colors`.  `jsonFile` is `none` when `custom_theme.json`
does not exist, `some none` when it exists but `json.load` raises
`JSONDecodeError`, and `some (some j)` when it parses to `j`; `tomlFile` is
the content of `alacritty.toml` when that file exists.  The result is
`.ok none` for the source's `return None`, `.ok (some r)` for a normal
return, and `.crash` for an exception not caught by the
`except (json.JSONDecodeError, KeyError)` handler. -/
def tomlStage (name : Str) (tomlFile : Option Str) : POut (Option ExtractRes) :=
  match tomlFile with
  | some content => .ok (some (tomlResolve name content))
  | none => .ok none

def extract_theme_colors (name : Str) (jsonFile : Option (Option JVal))
    (tomlFile : Option Str) : POut (Option ExtractRes) :=
  match jsonFile with
  | some (some j) =>
    match jsonPath name j with
    | .ok r => .ok (some r)
    | .keyErr => tomlStage name tomlFile
    | .crash => .crash
  | some none => tomlStage name tomlFile
  | none => tomlStage name tomlFile

/-! ### `generate_navitone_config` and `update_navitone_config` -/

/-- The `theme` dict built by `generate_navitone_config`. -/
structure ThemeCfg where
  name : Str
  source : Str
  colors : AL
  background : Str
  foreground : Str
deriving DecidableEq, Repr

def generate_navitone_config (r : ExtractRes) : ThemeCfg :=
  ⟨lit "omarchy-" ++ r.theme_name, lit "omarchy", r.colors, r.background, r.foreground⟩

/-- Python `f.readlines()`: split after every `'\n'`, keeping the
terminators; a final unterminated chunk is kept, an empty file gives `[]`.
`acc` is the current line so far, reversed. -/
def rlAux : Str → Str → List Str
  | [], acc => if acc = [] then [] else [acc.reverse]
  | c :: r, acc =>
    if c = '\n' then (acc.reverse ++ ['\n']) :: rlAux r [] else rlAux r (c :: acc)

def pyReadLines (s : Str) : List Str := rlAux s []

/-- `line.strip() == '[theme]' or line.strip().startswith('[theme.')`. -/
def isThemeHdr (l : Str) : Bool :=
  decide (pyStrip l = lit "[theme]") || isPre (lit "[theme.") (pyStrip l)

/-- `line.strip().startswith('[') and not line.strip().startswith('[theme')`:
a header that ends a theme section (and is itself kept). -/
def isClearHdr (l : Str) : Bool :=
  isPre (lit "[") (pyStrip l) && !isPre (lit "[theme") (pyStrip l)

/-- The removal pass of `update_navitone_config` (lines 318–335), with
`flag` the `skip_theme_section` boolean. -/
def removalAux : Bool → List Str → List Str
  | _, [] => []
  | flag, l :: rest =>
    if isThemeHdr l then removalAux true rest
    else if flag && isClearHdr l then l :: removalAux false rest
    else if flag then removalAux true rest
    else l :: removalAux false rest

/-- `line.endswith('\n')` on a single readlines chunk. -/
def endsNl (l : Str) : Bool := decide (l.getLast? = some '\n')

/-- Lines 338–339: `if new_lines and not new_lines[-1].endswith('\n'):
new_lines.append('\n')`. -/
def fixup (L : List Str) : List Str :=
  if L ≠ [] ∧ ¬ endsNl (L.getLastD []) then L ++ [lit "\n"] else L

/-- One serialized color line: `f'{color_name} = "{color_value}"\n'`. -/
def themeLine (p : Str × Str) : Str :=
  p.1 ++ lit " = \"" ++ p.2 ++ lit "\"\n"

/-- The appended theme block (lines 341–351), already split at every line
break; the source appends `'\n[theme]\n'` and `'\n[theme.colors]\n'` as
single list elements, but `writelines` concatenates, so only the
concatenation `blockJoin` matters. -/
def blockLines (cfg : ThemeCfg) : List Str :=
  [lit "\n", lit "[theme]\n",
   lit "name = \"" ++ cfg.name ++ lit "\"\n",
   lit "source = \"" ++ cfg.source ++ lit "\"\n",
   lit "\n", lit "[theme.colors]\n"]
  ++ cfg.colors.map themeLine
  ++ [lit "background = \"" ++ cfg.background ++ lit "\"\n",
      lit "foreground = \"" ++ cfg.foreground ++ lit "\"\n",
      lit "\n"]

def blockJoin (cfg : ThemeCfg) : Str := (blockLines cfg).flatten

/-- The kept part of the destination after the removal pass and the
trailing-newline fixup, as one string. -/
def keptPart (c : Str) : Str := (fixup (removalAux false (pyReadLines c))).flatten

/-- `update_navitone_config` as a transform of the destination file's
content (the existence check and the I/O of the source surround exactly
this computation; `writelines` concatenates the kept lines and the new
block). -/
def update_navitone_config (c : Str) (cfg : ThemeCfg) : Str :=
  keptPart c ++ blockJoin cfg

/-- The six semantic role names, in the insertion order shared by every
branch that builds a six-role colors dict. -/
def sixRoleNames : List Str :=
  [lit "accent", lit "primary", lit "secondary", lit "success", lit "warning", lit "error"]

/-- `a` if present, else `b` (Python's "normal wins, bright fills in"). -/
def orO (a b : Option Str) : Option Str :=
  match a with
  | some v => some v
  | none => b

/-- A string without line breaks (one readlines chunk's worth of payload). -/
abbrev noNl (l : Str) : Prop := '\n' ∉ l

/-- A complete line: newline-terminated, no interior newline. -/
def completeLine (l : Str) : Prop := ∃ m, l = m ++ ['\n'] ∧ '\n' ∉ m

/-- A header line for the purposes of the removal pass: one that either
starts a theme section or ends one. -/
def isHdr (l : Str) : Bool := isThemeHdr l || isClearHdr l

/-- The `skip_theme_section` flag before processing line `j` of `L`, starting
from `f`: decided by the most recent header among the first `j` lines. -/
def flagAt (f : Bool) (L : List Str) (j : Nat) : Bool :=
  match (L.take j).reverse.find? isHdr with
  | some h => isThemeHdr h
  | none => f

/-- Positional keep-condition of the removal pass: line `i` survives iff it
is not a theme header and the flag is down right after it is processed
(so the header that ends a theme section is itself kept). -/
def keepLine (f : Bool) (L : List Str) (i : Nat) : Bool :=
  !isThemeHdr (L.getD i []) && !flagAt f L (i + 1)

/-- The removal pass described positionally: the sublist of lines whose
position satisfies `keepLine`. -/
def keptSpec (f : Bool) (L : List Str) : List Str :=
  (List.range L.length).filterMap
    (fun i => if keepLine f L i then some (L.getD i []) else none)

/-- `skip_theme_section` after one line. -/
def nextFlag (l : Str) (f : Bool) : Bool :=
  if isThemeHdr l then true else if isClearHdr l then false else f

/-- `skip_theme_section` after a list of lines. -/
def flagAfter (f : Bool) (L : List Str) : Bool := L.foldl (fun fl l => nextFlag l fl) f

/-- A normalized color value: six hex digits (as written by `#rrggbb`
palettes). -/
abbrev hex6 (x : Str) : Prop := x.length = 6 ∧ ∀ c ∈ x, isHexCh c

/-- The palette that claim C2 predicts for a descriptor with neither
`colors.terminal` nor `apps.alacritty`: the per-role fallback constants of
the structured branch. -/
def c2ClaimPalette : AL :=
  [(lit "accent", lit "#38d6fa"), (lit "primary", lit "#048ba8"),
   (lit "secondary", lit "#d35f5f"), (lit "success", lit "#a9fbd7"),
   (lit "warning", lit "#9f87af"), (lit "error", lit "#9c528b")]

/-- A descriptor whose `apps.alacritty` exists but lacks `colors`: reading
`['colors']` raises the `KeyError` that the source catches. -/
def c3Json : JVal := JVal.obj [(lit "apps", JVal.obj [(lit "alacritty", JVal.obj [])])]

/-- A perfectly ordinary line-oriented theme file. -/
def c3Toml : Str := lit "[colors.normal]\nred = \"#112233\"\n"

/-- Line-oriented input where normal and bright both define `red` and only
bright defines `blue`. -/
def c6WInput : Str :=
  lit "[colors.normal]\nred = \"#111111\"\n[colors.bright]\nred = \"#222222\"\nblue = \"#333333\"\n"

/-- Line-oriented input with no recognized color line but a discoverable
foreground. -/
def c7Input : Str := lit "foreground = \"#123456\"\n"

/-- Line-oriented input whose `[colors.primary]` defines only `foreground`,
while a `background` assignment sits in an unrecognized section. -/
def c9Input : Str :=
  lit "[colors.primary]\nforeground = \"#222222\"\n[other]\nbackground = \"#333333\"\n"

/-- Line-oriented input defining only a scannable `background`. -/
def c9WInput : Str := lit "background = \"#0a0b0c\"\n"

/-- A small computed theme config (empty palette), for the merger claims. -/
def c4Cfg : ThemeCfg :=
  ⟨lit "omarchy-t", lit "omarchy", [], lit "#000000", lit "#ffffff"⟩

/-- A fully-populated normalized theme config, for the round-trip claim. -/
def c8Cfg : ThemeCfg :=
  ⟨lit "omarchy-t", lit "omarchy",
   [(lit "accent", lit "#112233"), (lit "primary", lit "#213243"),
    (lit "secondary", lit "#314253"), (lit "success", lit "#415263"),
    (lit "warning", lit "#516273"), (lit "error", lit "#617283")],
   lit "#718293", lit "#8192a3"⟩

/-! ## Lemmas about the dict operations -/

theorem alook_aset (m : AL) (k v k2 : Str) :
    alook (aset m k v) k2 = if k = k2 then some v else alook m k2 := by
  induction m with
  | nil =>
    simp only [aset, alook]
  | cons p t ih =>
    obtain ⟨k1, v1⟩ := p
    by_cases h : k1 = k
    · subst h
      simp only [aset, if_pos rfl, alook]
      by_cases h2 : k1 = k2 <;> simp [h2]
    · simp only [aset, if_neg h, alook, ih]
      by_cases h2 : k1 = k2
      · subst h2
        simp [show ¬ k = k1 from fun hh => h hh.symm]
      · simp [h2]

theorem amem_eq (m : AL) (k : Str) : amem m k = (alook m k).isSome := rfl

theorem alook_fillBright (names : List Str) (hnd : names.Nodup) (b : AL) :
    ∀ (acc : AL) (k : Str),
      alook (fillBright acc names b) k =
        if k ∈ names then orO (alook acc k) (alook b k) else alook acc k := by
  induction names with
  | nil => intro acc k; simp [fillBright]
  | cons nm rest ih =>
    intro acc k
    obtain ⟨hnm, hrest⟩ := List.nodup_cons.mp hnd
    have hstep : fillBright acc (nm :: rest) b =
        fillBright (if !amem acc nm && amem b nm then aset acc nm (aget b nm []) else acc)
          rest b := by
      simp [fillBright]
    rw [hstep, ih hrest]
    by_cases hk : k = nm
    · subst hk
      rw [if_neg hnm, if_pos (List.mem_cons_self k rest)]
      cases h1 : alook acc k with
      | some v => simp [amem, h1, orO]
      | none =>
        cases h2 : alook b k with
        | none => simp [amem, h1, h2, orO]
        | some w => simp [amem, h1, h2, orO, alook_aset, aget]
    · have hacc : alook (if !amem acc nm && amem b nm then aset acc nm (aget b nm []) else acc) k
          = alook acc k := by
        by_cases hc : (!amem acc nm && amem b nm) = true
        · rw [if_pos hc, alook_aset, if_neg (show ¬ nm = k from fun hh => hk hh.symm)]
        · rw [if_neg hc]
      rw [hacc]
      simp [List.mem_cons, hk]

theorem alook_six_error (a b c d e f : Str) :
    alook [(lit "accent", a), (lit "primary", b), (lit "secondary", c),
           (lit "success", d), (lit "warning", e), (lit "error", f)] (lit "error") = some f := by
  have h1 : ¬ lit "accent" = lit "error" := by decide
  have h2 : ¬ lit "primary" = lit "error" := by decide
  have h3 : ¬ lit "secondary" = lit "error" := by decide
  have h4 : ¬ lit "success" = lit "error" := by decide
  have h5 : ¬ lit "warning" = lit "error" := by decide
  simp [alook, h1, h2, h3, h4, h5]

theorem alook_six_accent (a b c d e f : Str) :
    alook [(lit "accent", a), (lit "primary", b), (lit "secondary", c),
           (lit "success", d), (lit "warning", e), (lit "error", f)] (lit "accent") = some a := by
  simp [alook]

/-! ## Lemmas about the structured (JSON) branch -/

theorem jsonSixFrom_keys (m : JVal) (cs : AL) (h : jsonSixFrom m = .ok cs) :
    cs.map Prod.fst = sixRoleNames := by
  unfold jsonSixFrom at h
  repeat' split at h
  all_goals first
    | (cases h; rfl)
    | cases h

theorem jsonColors_keys (j : JVal) (cs : AL) (h : jsonColors j = .ok cs) :
    cs.map Prod.fst = sixRoleNames ∨ cs = [] := by
  unfold jsonColors at h
  repeat' split at h
  all_goals first
    | (exact Or.inl (jsonSixFrom_keys _ _ h))
    | (cases h; exact Or.inr rfl)
    | cases h

theorem jsonPath_keys (name : Str) (j : JVal) (r : ExtractRes)
    (h : jsonPath name j = .ok r) :
    r.colors.map Prod.fst = sixRoleNames ∨ r.colors = [] := by
  unfold jsonPath at h
  split at h
  case _ cs hcs =>
    split at h
    case _ bgfg hbf =>
      cases h
      exact jsonColors_keys j cs hcs
    all_goals cases h
  all_goals cases h

theorem tomlResolve_keys (name content : Str) :
    (tomlResolve name content).colors.map Prod.fst = sixRoleNames := by
  simp only [tomlResolve]
  split
  · rfl
  · rfl

/-! ## Lemmas about the removal pass (claim C5) -/

theorem flagAt_zero (f : Bool) (L : List Str) : flagAt f L 0 = f := by
  simp [flagAt]

theorem flagAt_cons_succ (f : Bool) (l : Str) (rest : List Str) (i : Nat) :
    flagAt f (l :: rest) (i + 1) = flagAt (nextFlag l f) rest i := by
  unfold flagAt
  rw [List.take_succ_cons, List.reverse_cons, List.find?_append]
  cases hf : (List.take i rest).reverse.find? isHdr with
  | some h => simp [hf]
  | none =>
    by_cases h1 : isThemeHdr l
    · simp [hf, List.find?, isHdr, h1, nextFlag]
    · by_cases h2 : isClearHdr l
      · simp [hf, List.find?, isHdr, h1, h2, nextFlag]
      · simp [hf, List.find?, isHdr, h1, h2, nextFlag]

theorem keepLine_zero (f : Bool) (l : Str) (rest : List Str) :
    keepLine f (l :: rest) 0 = (!isThemeHdr l && !nextFlag l f) := by
  simp [keepLine, flagAt_cons_succ, flagAt_zero]

theorem keepLine_succ (f : Bool) (l : Str) (rest : List Str) (i : Nat) :
    keepLine f (l :: rest) (i + 1) = keepLine (nextFlag l f) rest i := by
  simp [keepLine, flagAt_cons_succ, List.getD_cons_succ]

theorem keptSpec_cons (f : Bool) (l : Str) (rest : List Str) :
    keptSpec f (l :: rest) =
      if !isThemeHdr l && !nextFlag l f then l :: keptSpec (nextFlag l f) rest
      else keptSpec (nextFlag l f) rest := by
  unfold keptSpec
  rw [List.length_cons, List.range_succ_eq_map, List.filterMap_cons, List.filterMap_map]
  have hcomp : ((fun i => if keepLine f (l :: rest) i then some ((l :: rest).getD i []) else none)
        ∘ Nat.succ)
      = fun i => if keepLine (nextFlag l f) rest i then some (rest.getD i []) else none := by
    funext i
    simp [Function.comp, keepLine_succ, List.getD_cons_succ]
  rw [hcomp, keepLine_zero]
  cases hb : (!isThemeHdr l && !nextFlag l f) <;> simp [List.getD_cons_zero]

theorem removalAux_eq_keptSpec (L : List Str) : ∀ f, removalAux f L = keptSpec f L := by
  induction L with
  | nil => intro f; simp [removalAux, keptSpec]
  | cons l rest ih =>
    intro f
    rw [keptSpec_cons]
    simp only [removalAux]
    by_cases h1 : isThemeHdr l
    · rw [if_pos h1, ih]
      simp [nextFlag, h1]
    · rw [if_neg h1]
      by_cases hf : f = true
      · by_cases h2 : isClearHdr l
        · rw [if_pos (by simp [hf, h2]), ih]
          simp [nextFlag, h1, h2, hf]
        · rw [if_neg (by simp [h2]), if_pos hf, ih]
          simp [nextFlag, h1, h2, hf]
      · have hf' : f = false := by simpa using hf
        rw [if_neg (by simp [hf']), if_neg (by simp [hf']), ih]
        simp [nextFlag, h1, hf']

/-! ## Lemmas about `pyReadLines` (for claim C4) -/

theorem rlAux_flatten : ∀ (s acc : Str), (rlAux s acc).flatten = acc.reverse ++ s := by
  intro s
  induction s with
  | nil =>
    intro acc
    by_cases h : acc = []
    · simp [rlAux, h]
    · simp [rlAux, h]
  | cons c r ih =>
    intro acc
    by_cases hc : c = '\n'
    · subst hc
      simp [rlAux, ih]
    · rw [show rlAux (c :: r) acc = rlAux r (c :: acc) from by simp [rlAux, hc]]
      rw [ih]
      simp

theorem pyReadLines_flatten (s : Str) : (pyReadLines s).flatten = s := by
  simpa using rlAux_flatten s []

theorem rlAux_cons_nl (r : Str) (acc : Str) :
    rlAux ('\n' :: r) acc = (acc.reverse ++ ['\n']) :: rlAux r [] := by
  simp [rlAux]

theorem rlAux_cons_other (c : Char) (hc : c ≠ '\n') (r : Str) (acc : Str) :
    rlAux (c :: r) acc = rlAux r (c :: acc) := by
  simp [rlAux, hc]

theorem rlAux_peel : ∀ (m : Str), '\n' ∉ m → ∀ (t acc : Str),
    rlAux (m ++ '\n' :: t) acc = (acc.reverse ++ m ++ ['\n']) :: rlAux t [] := by
  intro m
  induction m with
  | nil => intro _ t acc; simp [rlAux_cons_nl]
  | cons c r ih =>
    intro hm t acc
    have hc : c ≠ '\n' := by
      intro h
      exact hm (h ▸ List.mem_cons_self c r)
    have hr : '\n' ∉ r := fun h => hm (List.mem_cons_of_mem c h)
    rw [List.cons_append, rlAux_cons_other c hc, ih hr]
    simp

theorem pyReadLines_complete : ∀ (L : List Str), (∀ l ∈ L, completeLine l) →
    pyReadLines L.flatten = L := by
  intro L
  induction L with
  | nil => intro _; rfl
  | cons l rest ih =>
    intro h
    obtain ⟨m, hm, hnl⟩ := h l (List.mem_cons_self l rest)
    have hrest : ∀ x ∈ rest, completeLine x := fun x hx => h x (List.mem_cons_of_mem l hx)
    rw [List.flatten_cons, hm, List.append_assoc, List.singleton_append]
    unfold pyReadLines
    rw [rlAux_peel m hnl]
    have hres : rlAux rest.flatten [] = rest := ih hrest
    rw [hres]
    simp [← hm]

theorem rlAux_append_lastNl : ∀ (s : Str), s.getLast? = some '\n' → ∀ (t acc : Str),
    rlAux (s ++ t) acc = rlAux s acc ++ rlAux t [] := by
  intro s
  induction s with
  | nil => intro h; cases h
  | cons c r ih =>
    intro h t acc
    cases r with
    | nil =>
      have hc : c = '\n' := by
        simpa using h
      subst hc
      rw [List.cons_append, List.nil_append, rlAux_cons_nl, rlAux_cons_nl]
      rfl
    | cons d r2 =>
      have h2 : (d :: r2).getLast? = some '\n' := by
        rw [← h, List.getLast?_cons_cons]
      by_cases hc : c = '\n'
      · subst hc
        rw [List.cons_append, rlAux_cons_nl, rlAux_cons_nl, ih h2]
        rfl
      · rw [List.cons_append, rlAux_cons_other c hc, rlAux_cons_other c hc, ih h2]

theorem pyReadLines_append (s : Str) (h : s.getLast? = some '\n') (t : Str) :
    pyReadLines (s ++ t) = pyReadLines s ++ pyReadLines t :=
  rlAux_append_lastNl s h t []

/-- The chunks produced by `readlines`: a run of complete lines, optionally
followed by one unterminated nonempty chunk. -/
theorem rl_shape : ∀ (s acc : Str), '\n' ∉ acc →
    ∃ M R, rlAux s acc = M ++ R ∧ (∀ l ∈ M, completeLine l)
      ∧ (R = [] ∨ ∃ x, R = [x] ∧ '\n' ∉ x ∧ x ≠ []) := by
  intro s
  induction s with
  | nil =>
    intro acc hacc
    cases hacc2 : acc with
    | nil => exact ⟨[], [], rfl, by simp, Or.inl rfl⟩
    | cons a t =>
      refine ⟨[], [acc.reverse], by simp [hacc2, rlAux], by simp, Or.inr ⟨acc.reverse, rfl, ?_, ?_⟩⟩
      · simpa using hacc
      · simp [hacc2]
  | cons c r ih =>
    intro acc hacc
    by_cases hc : c = '\n'
    · subst hc
      rw [rlAux_cons_nl]
      obtain ⟨M, R, hMR, hM, hR⟩ := ih [] (by simp)
      refine ⟨(acc.reverse ++ ['\n']) :: M, R, by rw [hMR]; rfl, ?_, hR⟩
      intro l hl
      rcases List.mem_cons.mp hl with h | h
      · exact ⟨acc.reverse, h, by simpa using hacc⟩
      · exact hM l h
    · rw [rlAux_cons_other c hc]
      exact ih (c :: acc) (by simp [hacc, Ne.symm hc])

/-! ## Lemmas about the removal pass output (for claim C4) -/

theorem mem_removalAux : ∀ (L : List Str) (f : Bool) (l : Str),
    l ∈ removalAux f L → l ∈ L ∧ isThemeHdr l = false := by
  intro L
  induction L with
  | nil => intro f l h; cases h
  | cons x rest ih =>
    intro f l h
    unfold removalAux at h
    by_cases h1 : isThemeHdr x
    · rw [if_pos h1] at h
      obtain ⟨ha, hb⟩ := ih true l h
      exact ⟨List.mem_cons_of_mem x ha, hb⟩
    · rw [if_neg h1] at h
      by_cases h2 : (f && isClearHdr x) = true
      · rw [if_pos h2] at h
        rcases List.mem_cons.mp h with hl | hl
        · subst hl
          exact ⟨List.mem_cons_self l rest, by simpa using h1⟩
        · obtain ⟨ha, hb⟩ := ih false l hl
          exact ⟨List.mem_cons_of_mem x ha, hb⟩
      · rw [if_neg h2] at h
        by_cases h3 : f = true
        · rw [if_pos h3] at h
          obtain ⟨ha, hb⟩ := ih true l h
          exact ⟨List.mem_cons_of_mem x ha, hb⟩
        · rw [if_neg h3] at h
          rcases List.mem_cons.mp h with hl | hl
          · subst hl
            exact ⟨List.mem_cons_self l rest, by simpa using h1⟩
          · obtain ⟨ha, hb⟩ := ih false l hl
            exact ⟨List.mem_cons_of_mem x ha, hb⟩

theorem removal_noop : ∀ (L : List Str), (∀ l ∈ L, isThemeHdr l = false) →
    removalAux false L = L := by
  intro L
  induction L with
  | nil => intro _; rfl
  | cons x rest ih =>
    intro h
    have hx : isThemeHdr x = false := h x (List.mem_cons_self x rest)
    have hrest := fun l hl => h l (List.mem_cons_of_mem x hl)
    unfold removalAux
    rw [if_neg (by simp [hx]), if_neg (by simp), if_neg (by simp), ih hrest]

theorem nextFlag_false (x : Str) (hx : isThemeHdr x = false) : nextFlag x false = false := by
  unfold nextFlag
  rw [if_neg (by simp [hx])]
  split <;> rfl

theorem flagAfter_cons (f : Bool) (x : Str) (rest : List Str) :
    flagAfter f (x :: rest) = flagAfter (nextFlag x f) rest := by
  unfold flagAfter
  rw [List.foldl_cons]

theorem flagAfter_false : ∀ (L : List Str), (∀ l ∈ L, isThemeHdr l = false) →
    flagAfter false L = false := by
  intro L
  induction L with
  | nil => intro _; rfl
  | cons x rest ih =>
    intro h
    have hx : isThemeHdr x = false := h x (List.mem_cons_self x rest)
    rw [flagAfter_cons, nextFlag_false x hx]
    exact ih (fun l hl => h l (List.mem_cons_of_mem x hl))

theorem removalAux_cons (f : Bool) (x : Str) (rest : List Str) :
    removalAux f (x :: rest) =
      if isThemeHdr x then removalAux true rest
      else if f && isClearHdr x then x :: removalAux false rest
      else if f then removalAux true rest
      else x :: removalAux false rest := by
  simp [removalAux]

theorem removalAux_append : ∀ (X : List Str) (f : Bool) (Y : List Str),
    removalAux f (X ++ Y) = removalAux f X ++ removalAux (flagAfter f X) Y := by
  intro X
  induction X with
  | nil => intro f Y; rfl
  | cons x rest ih =>
    intro f Y
    rw [List.cons_append, flagAfter_cons, removalAux_cons, removalAux_cons]
    by_cases h1 : isThemeHdr x
    · rw [if_pos h1, if_pos h1, ih, show nextFlag x f = true from by simp [nextFlag, h1]]
    · have hn1 : nextFlag x f = if isClearHdr x = true then false else f := by
        simp [nextFlag, h1]
      rw [if_neg h1, if_neg h1, hn1]
      by_cases h2 : (f && isClearHdr x) = true
      · obtain ⟨hf, hcl⟩ := Bool.and_eq_true_iff.mp h2
        rw [if_pos h2, if_pos h2, List.cons_append, ih, if_pos hcl]
      · rw [if_neg h2, if_neg h2]
        by_cases h3 : f = true
        · have hcl : isClearHdr x = false := by
            cases hc : isClearHdr x
            · rfl
            · exact absurd (by simp [h3, hc]) h2
          rw [if_pos h3, if_pos h3, ih, if_neg (by simp [hcl]), h3]
        · have hf : f = false := by simpa using h3
          subst hf
          rw [if_neg h3, if_neg h3, List.cons_append, ih,
            show (if isClearHdr x = true then false else false) = false from by split <;> rfl]

/-! ## Strip and header-shape lemmas (for claim C4) -/

theorem rstrip_append_sp (x : Str) (c : Char) (h : isSp c = true) :
    rstrip (x ++ [c]) = rstrip x := by
  unfold rstrip
  rw [show (x ++ [c]).reverse = c :: x.reverse from by simp]
  rw [List.dropWhile_cons, if_pos h]

theorem pyStrip_append_nl (x : Str) : pyStrip (x ++ ['\n']) = pyStrip x := by
  unfold pyStrip
  rw [rstrip_append_sp x '\n' (by decide)]

theorem isThemeHdr_append_nl (x : Str) : isThemeHdr (x ++ ['\n']) = isThemeHdr x := by
  unfold isThemeHdr
  rw [pyStrip_append_nl]

theorem rstrip_cons (c : Char) (r : Str) (h : isSp c = false) :
    rstrip (c :: r) = c :: rstrip r := by
  unfold rstrip
  rw [show (c :: r).reverse = r.reverse ++ [c] from by simp, List.dropWhile_append]
  by_cases he : (List.dropWhile isSp r.reverse).isEmpty = true
  · rw [if_pos he]
    rw [List.isEmpty_iff] at he
    rw [he]
    simp [List.dropWhile_cons, h]
  · rw [if_neg he]
    simp

theorem lstrip_cons (c : Char) (r : Str) (h : isSp c = false) : lstrip (c :: r) = c :: r := by
  simp [lstrip, List.dropWhile_cons, h]

theorem pyStrip_cons_head (c : Char) (r : Str) (h : isSp c = false) :
    pyStrip (c :: r) = c :: rstrip r := by
  unfold pyStrip
  rw [rstrip_cons c r h, lstrip_cons c _ h]

theorem notHdr_of_head (c : Char) (r : Str) (hsp : isSp c = false) (hne : c ≠ '[') :
    isThemeHdr (c :: r) = false ∧ isClearHdr (c :: r) = false := by
  have hp := pyStrip_cons_head c r hsp
  have hpre : ∀ (t2 : Str), isPre ('[' :: t2) (pyStrip (c :: r)) = false := by
    intro t2
    rw [hp]
    simp [isPre, Ne.symm hne]
  have hne2 : ¬ (pyStrip (c :: r) = lit "[theme]") := by
    rw [hp, show lit "[theme]" = '[' :: lit "theme]" from rfl]
    intro heq
    injection heq with h1 _
    exact hne h1
  constructor
  · unfold isThemeHdr
    rw [decide_eq_false hne2, show lit "[theme." = '[' :: lit "theme." from rfl, hpre]
    rfl
  · unfold isClearHdr
    rw [show lit "[" = '[' :: lit "" from rfl, hpre]
    rfl

theorem sixKey_head (k : Str) (h : k ∈ sixRoleNames) :
    '\n' ∉ k ∧ ∃ c t, k = c :: t ∧ isSp c = false ∧ c ≠ '[' := by
  rw [sixRoleNames] at h
  simp only [List.mem_cons, List.not_mem_nil, or_false] at h
  rcases h with h | h | h | h | h | h
  · exact h ▸ ⟨by decide, 'a', lit "ccent", rfl, by decide, by decide⟩
  · exact h ▸ ⟨by decide, 'p', lit "rimary", rfl, by decide, by decide⟩
  · exact h ▸ ⟨by decide, 's', lit "econdary", rfl, by decide, by decide⟩
  · exact h ▸ ⟨by decide, 's', lit "uccess", rfl, by decide, by decide⟩
  · exact h ▸ ⟨by decide, 'w', lit "arning", rfl, by decide, by decide⟩
  · exact h ▸ ⟨by decide, 'e', lit "rror", rfl, by decide, by decide⟩

/-! ## The appended block under a second pass (for claim C4) -/

theorem removal_true_drop : ∀ (L : List Str), (∀ l ∈ L, isClearHdr l = false) →
    ∀ rest, removalAux true (L ++ rest) = removalAux true rest := by
  intro L
  induction L with
  | nil => intro _ rest; rfl
  | cons x xs ih =>
    intro h rest
    have hx : isClearHdr x = false := h x (List.mem_cons_self x xs)
    rw [List.cons_append, removalAux_cons]
    by_cases h1 : isThemeHdr x
    · rw [if_pos h1]
      exact ih (fun l hl => h l (List.mem_cons_of_mem x hl)) rest
    · rw [if_neg h1, if_neg (by simp [hx]), if_pos rfl]
      exact ih (fun l hl => h l (List.mem_cons_of_mem x hl)) rest

theorem blockLines_eq (cfg : ThemeCfg) :
    blockLines cfg = lit "\n" :: lit "[theme]\n"
      :: (lit "name = \"" ++ cfg.name ++ lit "\"\n")
      :: (lit "source = \"" ++ cfg.source ++ lit "\"\n")
      :: lit "\n" :: lit "[theme.colors]\n"
      :: (cfg.colors.map themeLine
          ++ [lit "background = \"" ++ cfg.background ++ lit "\"\n",
              lit "foreground = \"" ++ cfg.foreground ++ lit "\"\n", lit "\n"]) := by
  simp [blockLines]

theorem removal_blockLines (cfg : ThemeCfg)
    (hkeys : ∀ p ∈ cfg.colors, p.1 ∈ sixRoleNames) :
    removalAux false (blockLines cfg) = [lit "\n"] := by
  rw [blockLines_eq, removalAux_cons,
    if_neg (by decide), if_neg (by decide), if_neg (by decide),
    removalAux_cons, if_pos (by decide)]
  have hall : ∀ l ∈ ((lit "name = \"" ++ cfg.name ++ lit "\"\n")
      :: (lit "source = \"" ++ cfg.source ++ lit "\"\n")
      :: lit "\n" :: lit "[theme.colors]\n"
      :: (cfg.colors.map themeLine
          ++ [lit "background = \"" ++ cfg.background ++ lit "\"\n",
              lit "foreground = \"" ++ cfg.foreground ++ lit "\"\n", lit "\n"])),
      isClearHdr l = false := by
    intro l hl
    simp only [List.mem_cons, List.mem_append, List.mem_map, List.mem_singleton,
      List.not_mem_nil, or_false] at hl
    rcases hl with h | h | h | h | ⟨p, hp, h⟩ | h | h | h
    · subst h
      exact (notHdr_of_head 'n' (lit "ame = \"" ++ cfg.name ++ lit "\"\n")
        (by decide) (by decide)).2
    · subst h
      exact (notHdr_of_head 's' (lit "ource = \"" ++ cfg.source ++ lit "\"\n")
        (by decide) (by decide)).2
    · subst h
      decide
    · subst h
      decide
    · obtain ⟨_, cc, t, hk, hspc, hnec⟩ := sixKey_head p.1 (hkeys p hp)
      subst h
      unfold themeLine
      rw [hk]
      exact (notHdr_of_head cc (t ++ lit " = \"" ++ p.2 ++ lit "\"\n") hspc hnec).2
    · subst h
      exact (notHdr_of_head 'b' (lit "ackground = \"" ++ cfg.background ++ lit "\"\n")
        (by decide) (by decide)).2
    · subst h
      exact (notHdr_of_head 'f' (lit "oreground = \"" ++ cfg.foreground ++ lit "\"\n")
        (by decide) (by decide)).2
    · subst h
      decide
  rw [show ((lit "name = \"" ++ cfg.name ++ lit "\"\n")
      :: (lit "source = \"" ++ cfg.source ++ lit "\"\n")
      :: lit "\n" :: lit "[theme.colors]\n"
      :: (cfg.colors.map themeLine
          ++ [lit "background = \"" ++ cfg.background ++ lit "\"\n",
              lit "foreground = \"" ++ cfg.foreground ++ lit "\"\n", lit "\n"]))
      = ((lit "name = \"" ++ cfg.name ++ lit "\"\n")
      :: (lit "source = \"" ++ cfg.source ++ lit "\"\n")
      :: lit "\n" :: lit "[theme.colors]\n"
      :: (cfg.colors.map themeLine
          ++ [lit "background = \"" ++ cfg.background ++ lit "\"\n",
              lit "foreground = \"" ++ cfg.foreground ++ lit "\"\n", lit "\n"])) ++ []
    from (List.append_nil _).symm]
  rw [removal_true_drop _ hall []]
  rfl

theorem blockLines_complete (cfg : ThemeCfg) (hname : noNl cfg.name)
    (hsrc : noNl cfg.source) (hvals : ∀ p ∈ cfg.colors, noNl p.2)
    (hbg : noNl cfg.background) (hfg : noNl cfg.foreground)
    (hkeys : ∀ p ∈ cfg.colors, p.1 ∈ sixRoleNames) :
    ∀ l ∈ blockLines cfg, completeLine l := by
  intro l hl
  rw [blockLines_eq] at hl
  simp only [List.mem_cons, List.mem_append, List.mem_map, List.mem_singleton,
    List.not_mem_nil, or_false] at hl
  rcases hl with h | h | h | h | h | h | ⟨p, hp, h⟩ | h | h | h
  · exact h ▸ ⟨[], rfl, by decide⟩
  · exact h ▸ ⟨lit "[theme]", rfl, by decide⟩
  · subst h
    refine ⟨lit "name = \"" ++ cfg.name ++ lit "\"", by simp; rfl, ?_⟩
    simp only [List.mem_append]
    rintro (⟨hin | hin⟩ | hin)
    · revert hin; decide
    · exact hname hin
    · revert hin; decide
  · subst h
    refine ⟨lit "source = \"" ++ cfg.source ++ lit "\"", by simp; rfl, ?_⟩
    simp only [List.mem_append]
    rintro (⟨hin | hin⟩ | hin)
    · revert hin; decide
    · exact hsrc hin
    · revert hin; decide
  · exact h ▸ ⟨[], rfl, by decide⟩
  · exact h ▸ ⟨lit "[theme.colors]", rfl, by decide⟩
  · subst h
    obtain ⟨hknl, _⟩ := sixKey_head p.1 (hkeys p hp)
    refine ⟨p.1 ++ lit " = \"" ++ p.2 ++ lit "\"", by simp [themeLine]; rfl, ?_⟩
    simp only [List.mem_append]
    rintro (⟨⟨hin | hin⟩ | hin⟩ | hin)
    · exact hknl hin
    · revert hin; decide
    · exact hvals p hp hin
    · revert hin; decide
  · subst h
    refine ⟨lit "background = \"" ++ cfg.background ++ lit "\"", by simp; rfl, ?_⟩
    simp only [List.mem_append]
    rintro (⟨hin | hin⟩ | hin)
    · revert hin; decide
    · exact hbg hin
    · revert hin; decide
  · subst h
    refine ⟨lit "foreground = \"" ++ cfg.foreground ++ lit "\"", by simp; rfl, ?_⟩
    simp only [List.mem_append]
    rintro (⟨hin | hin⟩ | hin)
    · revert hin; decide
    · exact hfg hin
    · revert hin; decide
  · exact h ▸ ⟨[], rfl, by decide⟩

/-! ## Shape of the kept part (for claim C4) -/

theorem keptPart_shape_complete (c : Str)
    (hc : ∀ l ∈ removalAux false (pyReadLines c), completeLine l) :
    (∀ l ∈ pyReadLines (keptPart c), isThemeHdr l = false)
    ∧ (keptPart c = [] ∨ (keptPart c).getLast? = some '\n') := by
  rcases List.eq_nil_or_concat (removalAux false (pyReadLines c)) with hnil | ⟨K1, y, hKy⟩
  · have hkp : keptPart c = [] := by
      unfold keptPart
      rw [hnil]
      rfl
    rw [hkp]
    exact ⟨by intro l hl; simp [pyReadLines, rlAux] at hl, Or.inl rfl⟩
  · rw [List.concat_eq_append] at hKy
    have hyc : completeLine y := hc y (by rw [hKy]; simp)
    obtain ⟨m, hym, hmnl⟩ := hyc
    have hfix : fixup (removalAux false (pyReadLines c)) = removalAux false (pyReadLines c) := by
      unfold fixup
      rw [hKy]
      simp only [List.getLastD_concat]
      rw [if_neg]
      rintro ⟨_, h2⟩
      exact h2 (by rw [endsNl, hym]; simp [List.getLast?_concat])
    have hkp : keptPart c = (removalAux false (pyReadLines c)).flatten := by
      unfold keptPart
      rw [hfix]
    constructor
    · intro l hl
      have hplM : pyReadLines (keptPart c) = removalAux false (pyReadLines c) := by
        rw [hkp]
        exact pyReadLines_complete _ hc
      rw [hplM] at hl
      exact (mem_removalAux _ false l hl).2
    · right
      rw [hkp, hKy, List.flatten_append]
      rw [show [y].flatten = y from by simp, hym, ← List.append_assoc]
      exact List.getLast?_concat _

theorem keptPart_shape (c : Str) :
    (∀ l ∈ pyReadLines (keptPart c), isThemeHdr l = false)
    ∧ (keptPart c = [] ∨ (keptPart c).getLast? = some '\n') := by
  obtain ⟨M, R, hMR, hM, hR⟩ := rl_shape c [] (by simp)
  have hsplit : pyReadLines c = M ++ R := hMR
  have hKsplit : removalAux false (pyReadLines c)
      = removalAux false M ++ removalAux (flagAfter false M) R := by
    rw [hsplit, removalAux_append]
  have hK1c : ∀ l ∈ removalAux false M, completeLine l := by
    intro l hl
    exact hM l (mem_removalAux M false l hl).1
  rcases hR with hR | ⟨x, hRx, hxnl, hxne⟩
  · subst hR
    refine keptPart_shape_complete c ?_
    intro l hl
    rw [hKsplit, show removalAux (flagAfter false M) [] = [] from rfl,
      List.append_nil] at hl
    exact hK1c l hl
  · subst hRx
    have hK2 : removalAux (flagAfter false M) [x] = []
        ∨ removalAux (flagAfter false M) [x] = [x] := by
      rw [removalAux_cons]
      split_ifs <;> simp [removalAux]
    rcases hK2 with hK2 | hK2
    · refine keptPart_shape_complete c ?_
      intro l hl
      rw [hKsplit, hK2, List.append_nil] at hl
      exact hK1c l hl
    · -- the kept part ends in an unterminated chunk; the fixup appends a newline
      have hKy : removalAux false (pyReadLines c) = removalAux false M ++ [x] := by
        rw [hKsplit, hK2]
      have hxt : isThemeHdr x = false := by
        have hx : x ∈ removalAux (flagAfter false M) [x] := by
          rw [hK2]
          simp
        exact (mem_removalAux _ _ x hx).2
      have hend : endsNl x = false := by
        rw [endsNl]
        simp only [decide_eq_false_iff_not]
        intro hlast
        exact hxnl (List.mem_of_mem_getLast? hlast)
      have hfix : fixup (removalAux false (pyReadLines c))
          = (removalAux false M ++ [x]) ++ [lit "\n"] := by
        unfold fixup
        rw [hKy]
        simp only [List.getLastD_concat]
        rw [if_pos ⟨by simp, by simp [hend]⟩]
      have hkp : keptPart c = (removalAux false M).flatten ++ (x ++ ['\n']) := by
        unfold keptPart
        rw [hfix]
        simp [show (lit "\n" : Str) = ['\n'] from rfl]
      have hlines : pyReadLines (keptPart c) = removalAux false M ++ [x ++ ['\n']] := by
        rw [hkp, show (removalAux false M).flatten ++ (x ++ ['\n'])
            = (removalAux false M ++ [x ++ ['\n']]).flatten from by simp]
        refine pyReadLines_complete _ ?_
        intro l hl
        rcases List.mem_append.mp hl with h | h
        · exact hK1c l h
        · rw [List.mem_singleton.mp h]
          exact ⟨x, rfl, hxnl⟩
      constructor
      · intro l hl
        rw [hlines] at hl
        rcases List.mem_append.mp hl with h | h
        · exact (mem_removalAux M false l h).2
        · rw [List.mem_singleton.mp h, isThemeHdr_append_nl]
          exact hxt
      · right
        rw [hkp, ← List.append_assoc]
        exact List.getLast?_concat _

theorem keptPart_update (c : Str) (cfg : ThemeCfg) (hname : noNl cfg.name)
    (hsrc : noNl cfg.source) (hvals : ∀ p ∈ cfg.colors, noNl p.2)
    (hbg : noNl cfg.background) (hfg : noNl cfg.foreground)
    (hkeys : ∀ p ∈ cfg.colors, p.1 ∈ sixRoleNames) :
    keptPart (update_navitone_config c cfg) = keptPart c ++ lit "\n" := by
  obtain ⟨hnt, hend⟩ := keptPart_shape c
  have hbc : ∀ l ∈ blockLines cfg, completeLine l :=
    blockLines_complete cfg hname hsrc hvals hbg hfg hkeys
  have hb : pyReadLines (blockJoin cfg) = blockLines cfg := by
    rw [blockJoin]
    exact pyReadLines_complete _ hbc
  have hrb : removalAux false (blockLines cfg) = [lit "\n"] := removal_blockLines cfg hkeys
  set A := keptPart c with hAdef
  have hupd : update_navitone_config c cfg = A ++ blockJoin cfg := rfl
  rcases hend with hA | hA
  · rw [hupd, hA, List.nil_append]
    rw [show keptPart (blockJoin cfg)
        = (fixup (removalAux false (pyReadLines (blockJoin cfg)))).flatten from rfl]
    rw [hb, hrb, show fixup [lit "\n"] = [lit "\n"] from by decide]
    simp
  · have hsplit : pyReadLines (A ++ blockJoin cfg)
        = pyReadLines A ++ blockLines cfg := by
      rw [pyReadLines_append _ hA, hb]
    rw [hupd]
    rw [show keptPart (A ++ blockJoin cfg)
        = (fixup (removalAux false (pyReadLines (A ++ blockJoin cfg)))).flatten from rfl]
    rw [hsplit, removalAux_append, removal_noop _ hnt, flagAfter_false _ hnt, hrb]
    have hfix : fixup (pyReadLines A ++ [lit "\n"])
        = pyReadLines A ++ [lit "\n"] := by
      unfold fixup
      simp only [List.getLastD_concat]
      rw [if_neg]
      rintro ⟨_, h2⟩
      exact h2 (by decide)
    rw [hfix, List.flatten_append, pyReadLines_flatten]
    simp

/-! ## Raw-text scan lemmas (for claim C8) -/

theorem scanKV_cons_none (k : Str) (c : Char) (t : Str)
    (h : matchKV k (c :: t) = none) : scanKV k (c :: t) = scanKV k t := by
  simp [scanKV, h]

theorem scanKV_skip_head (k0 : Char) (kt : Str) :
    ∀ (x : Str), k0 ∉ x → ∀ (s : Str),
      scanKV (k0 :: kt) (x ++ s) = scanKV (k0 :: kt) s := by
  intro x
  induction x with
  | nil => intro _ s; rfl
  | cons c t ih =>
    intro hx s
    have hc : k0 ≠ c := fun h => hx (h ▸ List.mem_cons_self c t)
    rw [List.cons_append, scanKV_cons_none _ _ _ (by simp [matchKV, isPre, hc])]
    exact ih (fun h => hx (List.mem_cons_of_mem c h)) s

theorem scanBg_skip (x : Str) (hx : 'b' ∉ x) (s : Str) :
    scanKV (lit "background") (x ++ s) = scanKV (lit "background") s :=
  scanKV_skip_head 'b' (lit "ackground") x hx s

theorem scanFg_skip (x : Str) (hx : 'f' ∉ x) (s : Str) :
    scanKV (lit "foreground") (x ++ s) = scanKV (lit "foreground") s :=
  scanKV_skip_head 'f' (lit "oreground") x hx s

theorem hexCh_ne (c d : Char) (h : isHexCh c = true) (hd : isHexCh d = false) : d ≠ c := by
  intro he
  rw [← he] at h
  rw [h] at hd
  cases hd

theorem scanBg_skip_hex (a1 a2 a3 a4 a5 a6 : Char)
    (h4 : isHexCh a4 = true) (h5 : isHexCh a5 = true) (h6 : isHexCh a6 = true) (s : Str) :
    scanKV (lit "background") ('#' :: a1 :: a2 :: a3 :: a4 :: a5 :: a6 :: '"' :: s)
      = scanKV (lit "background") s := by
  have hk4 : ('k' : Char) ≠ a4 := hexCh_ne a4 'k' h4 (by decide)
  have hk5 : ('k' : Char) ≠ a5 := hexCh_ne a5 'k' h5 (by decide)
  have hk6 : ('k' : Char) ≠ a6 := hexCh_ne a6 'k' h6 (by decide)
  rw [scanKV_cons_none _ _ _ (by simp [matchKV, isPre])]
  rw [scanKV_cons_none _ _ _ (by simp [matchKV, isPre, hk4])]
  rw [scanKV_cons_none _ _ _ (by simp [matchKV, isPre, hk5])]
  rw [scanKV_cons_none _ _ _ (by simp [matchKV, isPre, hk6])]
  rw [scanKV_cons_none _ _ _ (by simp [matchKV, isPre])]
  rw [scanKV_cons_none _ _ _ (by simp [matchKV, isPre])]
  rw [scanKV_cons_none _ _ _ (by simp [matchKV, isPre])]
  rw [scanKV_cons_none _ _ _ (by simp [matchKV, isPre])]

theorem scanFg_skip_hex (a1 a2 a3 a4 a5 a6 : Char)
    (h2 : isHexCh a2 = true) (h3 : isHexCh a3 = true) (h4 : isHexCh a4 = true)
    (h5 : isHexCh a5 = true) (h6 : isHexCh a6 = true) (s : Str) :
    scanKV (lit "foreground") ('#' :: a1 :: a2 :: a3 :: a4 :: a5 :: a6 :: '"' :: s)
      = scanKV (lit "foreground") s := by
  have ho2 : ('o' : Char) ≠ a2 := hexCh_ne a2 'o' h2 (by decide)
  have ho3 : ('o' : Char) ≠ a3 := hexCh_ne a3 'o' h3 (by decide)
  have ho4 : ('o' : Char) ≠ a4 := hexCh_ne a4 'o' h4 (by decide)
  have ho5 : ('o' : Char) ≠ a5 := hexCh_ne a5 'o' h5 (by decide)
  have ho6 : ('o' : Char) ≠ a6 := hexCh_ne a6 'o' h6 (by decide)
  rw [scanKV_cons_none _ _ _ (by simp [matchKV, isPre])]
  rw [scanKV_cons_none _ _ _ (by simp [matchKV, isPre, ho2])]
  rw [scanKV_cons_none _ _ _ (by simp [matchKV, isPre, ho3])]
  rw [scanKV_cons_none _ _ _ (by simp [matchKV, isPre, ho4])]
  rw [scanKV_cons_none _ _ _ (by simp [matchKV, isPre, ho5])]
  rw [scanKV_cons_none _ _ _ (by simp [matchKV, isPre, ho6])]
  rw [scanKV_cons_none _ _ _ (by simp [matchKV, isPre])]
  rw [scanKV_cons_none _ _ _ (by simp [matchKV, isPre])]

theorem hex6_elim (x : Str) (h : hex6 x) :
    ∃ c1 c2 c3 c4 c5 c6, x = [c1, c2, c3, c4, c5, c6]
      ∧ isHexCh c1 = true ∧ isHexCh c2 = true ∧ isHexCh c3 = true
      ∧ isHexCh c4 = true ∧ isHexCh c5 = true ∧ isHexCh c6 = true := by
  obtain ⟨hlen, hall⟩ := h
  rcases x with _ | ⟨c1, _ | ⟨c2, _ | ⟨c3, _ | ⟨c4, _ | ⟨c5, _ | ⟨c6, _ | ⟨c7, t⟩⟩⟩⟩⟩⟩⟩ <;>
    simp_all
  refine ⟨c1, c2, c3, c4, c5, c6, ?_⟩
  tauto

theorem scanBg_hit (b1 b2 b3 b4 b5 b6 : Char)
    (h1 : isHexCh b1 = true) (h2 : isHexCh b2 = true) (h3 : isHexCh b3 = true)
    (h4 : isHexCh b4 = true) (h5 : isHexCh b5 = true) (h6 : isHexCh b6 = true) (s : Str) :
    scanKV (lit "background")
      (lit "\nbackground = \"" ++ ('#' :: b1 :: b2 :: b3 :: b4 :: b5 :: b6 :: '"' :: s))
      = some [b1, b2, b3, b4, b5, b6] := by
  have hm : matchKV (lit "background")
      ('b' :: (lit "ackground = \"" ++ ('#' :: b1 :: b2 :: b3 :: b4 :: b5 :: b6 :: '"' :: s)))
      = some [b1, b2, b3, b4, b5, b6] := by
    simp [matchKV, isPre, kvTail, hexAt, take6hex, isQuote, isSp, lit,
      h1, h2, h3, h4, h5, h6]
  rw [show (lit "\nbackground = \"" ++ ('#' :: b1 :: b2 :: b3 :: b4 :: b5 :: b6 :: '"' :: s) : Str)
      = '\n' :: 'b' :: (lit "ackground = \"" ++ ('#' :: b1 :: b2 :: b3 :: b4 :: b5 :: b6 :: '"' :: s))
    from rfl]
  rw [scanKV_cons_none _ _ _ (by simp [matchKV, isPre])]
  simp [scanKV, hm]

theorem scanFg_hit (b1 b2 b3 b4 b5 b6 : Char)
    (h1 : isHexCh b1 = true) (h2 : isHexCh b2 = true) (h3 : isHexCh b3 = true)
    (h4 : isHexCh b4 = true) (h5 : isHexCh b5 = true) (h6 : isHexCh b6 = true) (s : Str) :
    scanKV (lit "foreground")
      (lit "\nforeground = \"" ++ ('#' :: b1 :: b2 :: b3 :: b4 :: b5 :: b6 :: '"' :: s))
      = some [b1, b2, b3, b4, b5, b6] := by
  have hm : matchKV (lit "foreground")
      ('f' :: (lit "oreground = \"" ++ ('#' :: b1 :: b2 :: b3 :: b4 :: b5 :: b6 :: '"' :: s)))
      = some [b1, b2, b3, b4, b5, b6] := by
    simp [matchKV, isPre, kvTail, hexAt, take6hex, isQuote, isSp, lit,
      h1, h2, h3, h4, h5, h6]
  rw [show (lit "\nforeground = \"" ++ ('#' :: b1 :: b2 :: b3 :: b4 :: b5 :: b6 :: '"' :: s) : Str)
      = '\n' :: 'f' :: (lit "oreground = \"" ++ ('#' :: b1 :: b2 :: b3 :: b4 :: b5 :: b6 :: '"' :: s))
    from rfl]
  rw [scanKV_cons_none _ _ _ (by simp [matchKV, isPre])]
  simp [scanKV, hm]

/-! ## Scanner behavior on the serialized block (for claim C8) -/

theorem splitChAux_cons_sep (r acc : Str) :
    splitChAux '\n' ('\n' :: r) acc = acc.reverse :: splitChAux '\n' r [] := by
  simp [splitChAux]

theorem splitChAux_cons_other (c : Char) (hc : c ≠ '\n') (r acc : Str) :
    splitChAux '\n' (c :: r) acc = splitChAux '\n' r (c :: acc) := by
  simp [splitChAux, hc]

theorem splitChAux_peel : ∀ (x : Str), '\n' ∉ x → ∀ (y acc : Str),
    splitChAux '\n' (x ++ '\n' :: y) acc = (acc.reverse ++ x) :: splitChAux '\n' y [] := by
  intro x
  induction x with
  | nil => intro _ y acc; simp [splitChAux_cons_sep]
  | cons c r ih =>
    intro hx y acc
    have hc : c ≠ '\n' := fun h => hx (h ▸ List.mem_cons_self c r)
    rw [List.cons_append, splitChAux_cons_other c hc, ih (fun h => hx (List.mem_cons_of_mem c h))]
    simp

theorem splitCh_peel (x : Str) (hx : '\n' ∉ x) (y : Str) :
    splitCh '\n' (x ++ '\n' :: y) = x :: splitCh '\n' y := by
  unfold splitCh
  rw [splitChAux_peel x hx y []]
  rfl

theorem foldl_const (st : TomlSt) : ∀ (L : List Str),
    (∀ l ∈ L, tomlStep st l = st) → L.foldl tomlStep st = st := by
  intro L
  induction L with
  | nil => intro _; rfl
  | cons x rest ih =>
    intro h
    rw [List.foldl_cons, h x (List.mem_cons_self x rest)]
    exact ih (fun l hl => h l (List.mem_cons_of_mem x hl))

theorem tomlStep_noop (st : TomlSt) (hsect : st.sect = none) (l : Str) (c : Char) (t : Str)
    (hstrip : pyStrip l = c :: t) (hc1 : c ≠ '[') (hc2 : c ≠ '#') :
    tomlStep st l = st := by
  have h1 : ∀ (t2 : Str), isPre ('[' :: t2) (c :: t) = false := by
    intro t2
    simp [isPre, Ne.symm hc1]
  have h2 : isPre ['#'] (c :: t) = false := by
    simp [isPre, Ne.symm hc2]
  simp only [tomlStep, hstrip,
    show lit "[colors.normal]" = '[' :: lit "colors.normal]" from rfl,
    show lit "[colors.bright]" = '[' :: lit "colors.bright]" from rfl,
    show lit "[colors.primary]" = '[' :: lit "colors.primary]" from rfl,
    show lit "[colors." = '[' :: lit "colors." from rfl,
    show lit "[" = (['['] : Str) from rfl,
    show lit "#" = (['#'] : Str) from rfl,
    h1, h2]
  simp only [Bool.false_and, Bool.false_eq_true, if_false]
  by_cases hcond : (hasSub (lit "=") (c :: t)
      && (hasSub (lit "0x") (c :: t) || hasSub ['#'] (c :: t))) = true
  · rw [if_pos hcond]
    cases hsh : searchHex (stripQ (pyStrip (splitEq (c :: t)).2)) with
    | none => simp [hsh]
    | some d => simp [hsh, hsect]
  · rw [if_neg hcond]

theorem rstrip_append_nonsp (x : Str) (d : Char) (hd : isSp d = false) :
    rstrip (x ++ [d]) = x ++ [d] := by
  unfold rstrip
  rw [show (x ++ [d]).reverse = d :: x.reverse from by simp]
  rw [List.dropWhile_cons, if_neg (by simp [hd])]
  simp

theorem pyStrip_headEnd (c : Char) (x : Str) (d : Char)
    (hc : isSp c = false) (hd : isSp d = false) :
    pyStrip (c :: (x ++ [d])) = c :: (x ++ [d]) := by
  unfold pyStrip
  rw [show (c :: (x ++ [d]) : Str) = (c :: x) ++ [d] from rfl, rstrip_append_nonsp _ _ hd]
  rw [show ((c :: x) ++ [d] : Str) = c :: (x ++ [d]) from rfl, lstrip_cons _ _ hc]

theorem splitCh_complete : ∀ (L : List Str), (∀ l ∈ L, completeLine l) →
    splitCh '\n' L.flatten = L.map List.dropLast ++ [[]] := by
  intro L
  induction L with
  | nil => intro _; rfl
  | cons l rest ih =>
    intro h
    obtain ⟨m, hm, hnl⟩ := h l (List.mem_cons_self l rest)
    rw [List.flatten_cons, hm, List.append_assoc, List.singleton_append, splitCh_peel m hnl]
    rw [ih (fun x hx => h x (List.mem_cons_of_mem l hx))]
    rw [List.map_cons, List.dropLast_concat, List.cons_append]

theorem noNl_hexval (c1 c2 c3 c4 c5 c6 : Char)
    (h1 : isHexCh c1 = true) (h2 : isHexCh c2 = true) (h3 : isHexCh c3 = true)
    (h4 : isHexCh c4 = true) (h5 : isHexCh c5 = true) (h6 : isHexCh c6 = true) :
    noNl ('#' :: [c1, c2, c3, c4, c5, c6]) := by
  intro hmem
  simp only [List.mem_cons, List.not_mem_nil, or_false] at hmem
  rcases hmem with h | h | h | h | h | h | h
  · exact absurd h (by decide)
  · exact (hexCh_ne c1 '\n' h1 (by decide)) h
  · exact (hexCh_ne c2 '\n' h2 (by decide)) h
  · exact (hexCh_ne c3 '\n' h3 (by decide)) h
  · exact (hexCh_ne c4 '\n' h4 (by decide)) h
  · exact (hexCh_ne c5 '\n' h5 (by decide)) h
  · exact (hexCh_ne c6 '\n' h6 (by decide)) h

/-! ## Claim theorems -/

/-- Claim C4 (amended): the merger is NOT byte-idempotent; a second run
with the same computed theme block reproduces the first run's output with
exactly one extra blank line inserted before the appended `[theme]` block
(so no duplicate `[theme]` sections accumulate, but the content is not
byte-identical — the amendment forced by `claim_c4_counterexample`).
Stated for computed blocks whose serialized fields contain no newline and
whose color keys are the six roles (or none), the shapes produced by
extraction of well-formed palettes. -/
theorem claim_c4 (c : Str) (cfg : ThemeCfg) (hname : noNl cfg.name)
    (hsrc : noNl cfg.source) (hvals : ∀ p ∈ cfg.colors, noNl p.2)
    (hbg : noNl cfg.background) (hfg : noNl cfg.foreground)
    (hkeys : cfg.colors.map Prod.fst = sixRoleNames ∨ cfg.colors = []) :
    update_navitone_config c cfg = keptPart c ++ blockJoin cfg
    ∧ update_navitone_config (update_navitone_config c cfg) cfg
        = (keptPart c ++ lit "\n") ++ blockJoin cfg := by
  have hkeys2 : ∀ p ∈ cfg.colors, p.1 ∈ sixRoleNames := by
    rcases hkeys with h | h
    · intro p hp
      rw [← h]
      exact List.mem_map_of_mem Prod.fst hp
    · intro p hp
      rw [h] at hp
      cases hp
  refine ⟨rfl, ?_⟩
  rw [show update_navitone_config (update_navitone_config c cfg) cfg
      = keptPart (update_navitone_config c cfg) ++ blockJoin cfg from rfl]
  rw [keptPart_update c cfg hname hsrc hvals hbg hfg hkeys2]

/-- Witness for C4: a concrete destination and block, with the first- and
second-run outputs in the amended relationship. -/
theorem claim_c4_witness :
    noNl c4Cfg.name
    ∧ (update_navitone_config (lit "x = 1\n") c4Cfg
        = keptPart (lit "x = 1\n") ++ blockJoin c4Cfg
      ∧ update_navitone_config (update_navitone_config (lit "x = 1\n") c4Cfg) c4Cfg
        = (keptPart (lit "x = 1\n") ++ lit "\n") ++ blockJoin c4Cfg) :=
  ⟨by decide,
   claim_c4 (lit "x = 1\n") c4Cfg (by decide) (by decide) (by decide) (by decide)
     (by decide) (by decide)⟩

/-- Counterexample to C4 as stated: applying the merger twice to a concrete
destination is not byte-identical to applying it once (a blank line
accumulates). -/
theorem claim_c4_counterexample :
    update_navitone_config (update_navitone_config (lit "x = 1\n") c4Cfg) c4Cfg
      ≠ update_navitone_config (lit "x = 1\n") c4Cfg := by
  decide

/-- Claim C5: the removal pass keeps exactly the lines that are neither
theme headers nor inside a theme section — a section extending until the
next header line not beginning with `[theme` (that header itself is kept) —
verbatim and in original relative order, as expressed by the positional
`keepLine`/`keptSpec` description. -/
theorem claim_c5 (c : Str) :
    removalAux false (pyReadLines c) = keptSpec false (pyReadLines c) :=
  removalAux_eq_keptSpec (pyReadLines c) false

/-- Claim C1 (amended): every successful extraction returns a colors mapping
whose keys are exactly the six semantic roles in order — except that the
structured branch can return a wholly empty colors mapping (when the parsed
descriptor offers neither `colors.terminal` nor `apps.alacritty`), the
amendment forced by `claim_c1_counterexample`.  Background and foreground
are record fields of the result and hence always present. -/
theorem claim_c1 (name : Str) (jsonFile : Option (Option JVal)) (tomlFile : Option Str)
    (r : ExtractRes) (h : extract_theme_colors name jsonFile tomlFile = .ok (some r)) :
    r.colors.map Prod.fst = sixRoleNames ∨ r.colors = [] := by
  have htoml : ∀ tf : Option Str, tomlStage name tf = .ok (some r) →
      r.colors.map Prod.fst = sixRoleNames ∨ r.colors = [] := by
    intro tf htf
    cases tf with
    | some content =>
      simp only [tomlStage] at htf
      cases htf
      exact Or.inl (tomlResolve_keys name content)
    | none => simp [tomlStage] at htf
  cases jsonFile with
  | none =>
    simp only [extract_theme_colors] at h
    exact htoml tomlFile h
  | some jo =>
    cases jo with
    | none =>
      simp only [extract_theme_colors] at h
      exact htoml tomlFile h
    | some j =>
      simp only [extract_theme_colors] at h
      split at h
      next r2 heq =>
        cases h
        exact jsonPath_keys name j _ heq
      next heq => exact htoml tomlFile h
      next heq => cases h

/-- Witness for C1: a concrete successful extraction (empty line-oriented
file) satisfying the amended conclusion. -/
theorem claim_c1_witness :
    extract_theme_colors (lit "t") none (some []) = .ok (some (tomlResolve (lit "t") []))
    ∧ ((tomlResolve (lit "t") []).colors.map Prod.fst = sixRoleNames
       ∨ (tomlResolve (lit "t") []).colors = []) :=
  ⟨by decide, claim_c1 (lit "t") none (some []) _ (by decide)⟩

/-- Counterexample to C1 as stated: a theme source processed without fatal
error (an existing, valid `custom_theme.json` holding an empty object) whose
returned colors mapping is wholly empty — no role is populated, from source
or fallback. -/
theorem claim_c1_counterexample :
    extract_theme_colors (lit "t") (some (some (JVal.obj []))) none =
      .ok (some ⟨lit "t", [], lit "#000000", lit "#ffffff"⟩)
    ∧ (⟨lit "t", [], lit "#000000", lit "#ffffff"⟩ : ExtractRes).colors = [] := by
  constructor
  · decide
  · rfl

/-- Claim C2 (amended): for a structured descriptor that parses but offers
neither `colors.terminal` nor `apps.alacritty` (the source's two membership
tests both evaluating to false), the structured branch returns an *empty*
colors mapping — the per-role fallback constants are only substituted for
individually missing keys when one of the two sub-mappings is present. -/
theorem claim_c2 (j : JVal) (hT : condTerminal j = .ok false)
    (hA : condAlacritty j = .ok false) (name : Str) (r : ExtractRes)
    (h : jsonPath name j = .ok r) : r.colors = [] := by
  have hc : jsonColors j = .ok [] := by
    unfold jsonColors
    rw [hT, hA]
  unfold jsonPath at h
  rw [hc] at h
  simp only at h
  cases hbf : jsonBgFg j with
  | ok bgfg => rw [hbf] at h; cases h; rfl
  | keyErr => rw [hbf] at h; cases h
  | crash => rw [hbf] at h; cases h

/-- Witness for C2: the empty-object descriptor. -/
theorem claim_c2_witness :
    condTerminal (JVal.obj []) = .ok false
    ∧ (⟨lit "t", [], lit "#000000", lit "#ffffff"⟩ : ExtractRes).colors = [] :=
  ⟨by decide,
   claim_c2 (JVal.obj []) (by decide) (by decide) (lit "t")
     ⟨lit "t", [], lit "#000000", lit "#ffffff"⟩ (by decide)⟩

/-- Counterexample to C2 as stated: for the empty-object descriptor the
resolved colors mapping is `[]`, not the documented six fallback constants. -/
theorem claim_c2_counterexample :
    extract_theme_colors (lit "t") (some (some (JVal.obj []))) none =
      .ok (some ⟨lit "t", [], lit "#000000", lit "#ffffff"⟩)
    ∧ ([] : AL) ≠ c2ClaimPalette := by
  constructor
  · decide
  · decide

/-- Claim C3 (amended): when the structured descriptor cannot be parsed
(`some none`), or parses but a nested lookup raises the caught `KeyError`,
the line-oriented extraction IS attempted as a fallback, and with a
line-oriented file present extraction returns its result (not "no data"). -/
theorem claim_c3 :
    (∀ (name t : Str),
      extract_theme_colors name (some none) (some t) = .ok (some (tomlResolve name t)))
    ∧ (∀ (name : Str) (j : JVal) (t : Str), jsonPath name j = .keyErr →
        extract_theme_colors name (some (some j)) (some t) = .ok (some (tomlResolve name t))) := by
  constructor
  · intro name t
    rfl
  · intro name j t h
    simp [extract_theme_colors, tomlStage, h]

/-- Witness for C3: a descriptor whose `apps.alacritty` lacks `colors`
(`KeyError`), with a parseable `alacritty.toml` alongside. -/
theorem claim_c3_witness :
    jsonPath (lit "t") c3Json = .keyErr
    ∧ extract_theme_colors (lit "t") (some (some c3Json)) (some c3Toml) =
        .ok (some (tomlResolve (lit "t") c3Toml)) :=
  ⟨by decide, claim_c3.2 (lit "t") c3Json c3Toml (by decide)⟩

/-- Counterexample to C3 as stated: with an unparseable descriptor and a
parseable `alacritty.toml` present, extraction does NOT yield "no data": it
returns the line-oriented result (whose error role carries the parsed red). -/
theorem claim_c3_counterexample :
    extract_theme_colors (lit "t") (some none) (some c3Toml) ≠ .ok none
    ∧ alook (tomlResolve (lit "t") c3Toml).colors (lit "error") = some (lit "#112233") := by
  constructor
  · decide
  · decide

/-- Claim C6: the merged color map equals the normal-section map with each
of the six canonical role names missing from it filled from the bright map
when present there; consequently, when normal defines `red` the resolved
`error` role is the normal value, and when normal omits `blue` but bright
defines it the resolved `accent` role is the bright value. -/
theorem claim_c6 (name content : Str) :
    (∀ k, alook (parse_toml_colors content).1 k =
        if k ∈ sixColorNames then
          orO (alook (scanToml content).normal k) (alook (scanToml content).bright k)
        else alook (scanToml content).normal k)
    ∧ (∀ v, alook (scanToml content).normal (lit "red") = some v →
        alook (tomlResolve name content).colors (lit "error") = some v)
    ∧ (∀ v, alook (scanToml content).normal (lit "blue") = none →
        alook (scanToml content).bright (lit "blue") = some v →
        alook (tomlResolve name content).colors (lit "accent") = some v) := by
  have hnd : sixColorNames.Nodup := by decide
  have h1 : ∀ k, alook (parse_toml_colors content).1 k =
      if k ∈ sixColorNames then
        orO (alook (scanToml content).normal k) (alook (scanToml content).bright k)
      else alook (scanToml content).normal k := by
    intro k
    have h := alook_fillBright sixColorNames hnd (scanToml content).bright
      (scanToml content).normal k
    simpa [parse_toml_colors] using h
  refine ⟨h1, ?_, ?_⟩
  · intro v hv
    have hm : alook (parse_toml_colors content).1 (lit "red") = some v := by
      rw [h1, if_pos (by decide : lit "red" ∈ sixColorNames), hv]
      rfl
    have hne : ¬ (parse_toml_colors content).1 = [] := by
      intro h0
      rw [h0] at hm
      cases hm
    simp only [tomlResolve]
    rw [if_neg hne]
    rw [alook_six_error]
    rw [aget, hm]
    rfl
  · intro v hn hb
    have hm : alook (parse_toml_colors content).1 (lit "blue") = some v := by
      rw [h1, if_pos (by decide : lit "blue" ∈ sixColorNames), hn, hb]
      rfl
    have hne : ¬ (parse_toml_colors content).1 = [] := by
      intro h0
      rw [h0] at hm
      cases hm
    simp only [tomlResolve]
    rw [if_neg hne]
    rw [alook_six_accent]
    rw [aget, hm]
    rfl

/-- Witness for C6: normal red `#111111`, bright red `#222222` and bright
blue `#333333` — error resolves to the normal red, accent to the bright
blue. -/
theorem claim_c6_witness :
    alook (scanToml c6WInput).normal (lit "red") = some (lit "#111111")
    ∧ alook (scanToml c6WInput).normal (lit "blue") = none
    ∧ alook (scanToml c6WInput).bright (lit "blue") = some (lit "#333333")
    ∧ alook (tomlResolve (lit "t") c6WInput).colors (lit "error") = some (lit "#111111")
    ∧ alook (tomlResolve (lit "t") c6WInput).colors (lit "accent") = some (lit "#333333") :=
  ⟨by decide, by decide, by decide,
   (claim_c6 (lit "t") c6WInput).2.1 (lit "#111111") (by decide),
   (claim_c6 (lit "t") c6WInput).2.2 (lit "#333333") (by decide) (by decide)⟩

/-- Claim C7: with an empty merged color map the resolved palette's six
roles are the fixed grayscale gradient, whatever foreground may be
discoverable elsewhere in the file (the content is universally
quantified and the gradient is a constant). -/
theorem claim_c7 (name content : Str) (h : (parse_toml_colors content).1 = []) :
    (tomlResolve name content).colors = grayPairs := by
  simp only [tomlResolve]
  rw [if_pos h]

/-- Witness for C7: a file whose only color-looking line sits outside any
recognized section, with a discoverable foreground. -/
theorem claim_c7_witness :
    (parse_toml_colors c7Input).1 = []
    ∧ (tomlResolve (lit "t") c7Input).colors = grayPairs :=
  ⟨by decide, claim_c7 (lit "t") c7Input (by decide)⟩

/-- Claim C9 (amended): background and foreground are taken per key from
the primary-section map (fixed defaults for missing keys); the raw-text
regex scan runs only when the primary map is entirely empty, and then each
field is overwritten independently when its pattern matches.  A nonempty
primary map missing one of the keys yields that key's fixed default with no
scan — the amendment forced by `claim_c9_counterexample`. -/
theorem claim_c9 (name content : Str) :
    ((parse_toml_colors content).2 ≠ [] →
      (tomlResolve name content).background
          = aget (parse_toml_colors content).2 (lit "background") (lit "#282a36")
      ∧ (tomlResolve name content).foreground
          = aget (parse_toml_colors content).2 (lit "foreground") (lit "#f8f8f2"))
    ∧ ((parse_toml_colors content).2 = [] →
      (tomlResolve name content).background
          = (match scanKV (lit "background") content with
             | some d => '#' :: d
             | none => lit "#282a36")
      ∧ (tomlResolve name content).foreground
          = (match scanKV (lit "foreground") content with
             | some d => '#' :: d
             | none => lit "#f8f8f2")) := by
  constructor
  · intro h
    simp only [tomlResolve]
    rw [if_neg h, if_neg h]
    exact ⟨rfl, rfl⟩
  · intro h
    simp only [tomlResolve]
    rw [if_pos h, if_pos h, h]
    exact ⟨rfl, rfl⟩

/-- Witness for C9: empty primary map, scannable background. -/
theorem claim_c9_witness :
    (parse_toml_colors c9WInput).2 = []
    ∧ (tomlResolve (lit "t") c9WInput).background
        = (match scanKV (lit "background") c9WInput with
           | some d => '#' :: d
           | none => lit "#282a36")
    ∧ (tomlResolve (lit "t") c9WInput).foreground
        = (match scanKV (lit "foreground") c9WInput with
           | some d => '#' :: d
           | none => lit "#f8f8f2") :=
  ⟨by decide, ((claim_c9 (lit "t") c9WInput).2 (by decide)).1,
   ((claim_c9 (lit "t") c9WInput).2 (by decide)).2⟩

/-- Counterexample to C9 as stated: primary defines only `foreground`, so
"both keys present" fails; the background pattern matches `#333333` in the
raw text, yet the resolved background stays the fixed default `#282a36` —
the scan is not attempted when the primary map is merely incomplete. -/
theorem claim_c9_counterexample :
    scanKV (lit "background") c9Input = some (lit "333333")
    ∧ (tomlResolve (lit "t") c9Input).background = lit "#282a36"
    ∧ (tomlResolve (lit "t") c9Input).background ≠ '#' :: lit "333333" := by
  refine ⟨by decide, by decide, by decide⟩

/-- Claim C10: when `custom_theme.json` exists and parses without a lookup
error, `extract_theme_colors` returns the structured result whatever the
line-oriented file holds; and when the parsed JSON offers none of the color
sub-mappings, that result is the empty colors mapping with default
background `#000000` and foreground `#ffffff`. -/
theorem claim_c10 :
    (∀ (name : Str) (j : JVal) (r : ExtractRes) (t : Option Str),
      jsonPath name j = .ok r →
      extract_theme_colors name (some (some j)) t = .ok (some r))
    ∧ (∀ (name : Str) (j : JVal),
        condTerminal j = .ok false → condAlacritty j = .ok false →
        condPrimary j = .ok false →
        jsonPath name j = .ok ⟨name, [], lit "#000000", lit "#ffffff"⟩) := by
  constructor
  · intro name j r t h
    simp [extract_theme_colors, h]
  · intro name j hT hA hP
    simp [jsonPath, jsonColors, jsonBgFg, hT, hA, hP]

/-- Claim C8 (amended): serializing a fully-populated palette of normalized
`#rrggbb` values into the appended theme block and re-running the
line-oriented extractor on the result does NOT reproduce the six roles: the
`[theme.colors]` section is not one of the recognized `[colors.*]` sections,
so the scanner finds no colors and the six roles come back as the fixed
grayscale gradient; only background and foreground survive the round trip —
and only via the raw-text regex scan.  The amendment is forced by
`claim_c8_counterexample`. -/
theorem claim_c8 (va vp vs vu vw ve vbg vfg : Str)
    (hva : hex6 va) (hvp : hex6 vp) (hvs : hex6 vs) (hvu : hex6 vu)
    (hvw : hex6 vw) (hve : hex6 ve) (hvbg : hex6 vbg) (hvfg : hex6 vfg) :
    tomlResolve (lit "t")
      (blockJoin ⟨lit "omarchy-t", lit "omarchy",
        [(lit "accent", '#' :: va), (lit "primary", '#' :: vp),
         (lit "secondary", '#' :: vs), (lit "success", '#' :: vu),
         (lit "warning", '#' :: vw), (lit "error", '#' :: ve)],
        '#' :: vbg, '#' :: vfg⟩)
      = ⟨lit "t", grayPairs, '#' :: vbg, '#' :: vfg⟩ := by
  obtain ⟨a1, a2, a3, a4, a5, a6, rfl, ha1, ha2, ha3, ha4, ha5, ha6⟩ := hex6_elim va hva
  obtain ⟨p1, p2, p3, p4, p5, p6, rfl, hp1, hp2, hp3, hp4, hp5, hp6⟩ := hex6_elim vp hvp
  obtain ⟨s1, s2, s3, s4, s5, s6, rfl, hs1, hs2, hs3, hs4, hs5, hs6⟩ := hex6_elim vs hvs
  obtain ⟨u1, u2, u3, u4, u5, u6, rfl, hu1, hu2, hu3, hu4, hu5, hu6⟩ := hex6_elim vu hvu
  obtain ⟨w1, w2, w3, w4, w5, w6, rfl, hw1, hw2, hw3, hw4, hw5, hw6⟩ := hex6_elim vw hvw
  obtain ⟨e1, e2, e3, e4, e5, e6, rfl, he1, he2, he3, he4, he5, he6⟩ := hex6_elim ve hve
  obtain ⟨g1, g2, g3, g4, g5, g6, rfl, hg1, hg2, hg3, hg4, hg5, hg6⟩ := hex6_elim vbg hvbg
  obtain ⟨f1, f2, f3, f4, f5, f6, rfl, hf1, hf2, hf3, hf4, hf5, hf6⟩ := hex6_elim vfg hvfg
  set CFG : ThemeCfg := ⟨lit "omarchy-t", lit "omarchy",
    [(lit "accent", '#' :: [a1, a2, a3, a4, a5, a6]),
     (lit "primary", '#' :: [p1, p2, p3, p4, p5, p6]),
     (lit "secondary", '#' :: [s1, s2, s3, s4, s5, s6]),
     (lit "success", '#' :: [u1, u2, u3, u4, u5, u6]),
     (lit "warning", '#' :: [w1, w2, w3, w4, w5, w6]),
     (lit "error", '#' :: [e1, e2, e3, e4, e5, e6])],
    '#' :: [g1, g2, g3, g4, g5, g6], '#' :: [f1, f2, f3, f4, f5, f6]⟩ with hCFG
  have hkeys : ∀ q ∈ CFG.colors, q.1 ∈ sixRoleNames := by
    intro q hq
    rw [hCFG] at hq
    simp only [List.mem_cons, List.not_mem_nil, or_false] at hq
    rcases hq with h | h | h | h | h | h <;> subst h
    · exact (by decide : lit "accent" ∈ sixRoleNames)
    · exact (by decide : lit "primary" ∈ sixRoleNames)
    · exact (by decide : lit "secondary" ∈ sixRoleNames)
    · exact (by decide : lit "success" ∈ sixRoleNames)
    · exact (by decide : lit "warning" ∈ sixRoleNames)
    · exact (by decide : lit "error" ∈ sixRoleNames)
  have hvals : ∀ q ∈ CFG.colors, noNl q.2 := by
    intro q hq
    rw [hCFG] at hq
    simp only [List.mem_cons, List.not_mem_nil, or_false] at hq
    rcases hq with h | h | h | h | h | h <;> subst h
    · exact noNl_hexval a1 a2 a3 a4 a5 a6 ha1 ha2 ha3 ha4 ha5 ha6
    · exact noNl_hexval p1 p2 p3 p4 p5 p6 hp1 hp2 hp3 hp4 hp5 hp6
    · exact noNl_hexval s1 s2 s3 s4 s5 s6 hs1 hs2 hs3 hs4 hs5 hs6
    · exact noNl_hexval u1 u2 u3 u4 u5 u6 hu1 hu2 hu3 hu4 hu5 hu6
    · exact noNl_hexval w1 w2 w3 w4 w5 w6 hw1 hw2 hw3 hw4 hw5 hw6
    · exact noNl_hexval e1 e2 e3 e4 e5 e6 he1 he2 he3 he4 he5 he6
  have hcomp : ∀ l ∈ blockLines CFG, completeLine l := by
    refine blockLines_complete CFG ?_ ?_ hvals ?_ ?_ hkeys
    · exact (by decide : noNl (lit "omarchy-t"))
    · exact (by decide : noNl (lit "omarchy"))
    · exact noNl_hexval g1 g2 g3 g4 g5 g6 hg1 hg2 hg3 hg4 hg5 hg6
    · exact noNl_hexval f1 f2 f3 f4 f5 f6 hf1 hf2 hf3 hf4 hf5 hf6
  have hlines : splitCh '\n' (blockJoin CFG) = (blockLines CFG).map List.dropLast ++ [[]] := by
    rw [show blockJoin CFG = (blockLines CFG).flatten from rfl]
    exact splitCh_complete _ hcomp
  have hnop : ∀ l ∈ (blockLines CFG).map List.dropLast ++ [[]],
      tomlStep ⟨none, [], [], []⟩ l = ⟨none, [], [], []⟩ := by
    intro l hl
    rcases List.mem_append.mp hl with hl | hl
    · obtain ⟨bl, hbl, hbleq⟩ := List.mem_map.mp hl
      subst hbleq
      rw [blockLines_eq, hCFG] at hbl
      simp only [List.mem_cons, List.mem_append, List.mem_map, List.mem_singleton,
        List.not_mem_nil, or_false] at hbl
      rcases hbl with h | h | h | h | h | h | ⟨q, hq, h⟩ | h | h | h
      · subst h; decide
      · subst h; decide
      · subst h; decide
      · subst h; decide
      · subst h; decide
      · subst h; decide
      · rcases hq with hq | hq | hq | hq | hq | hq <;> subst hq <;> subst h
        · rw [show (themeLine (lit "accent", ('#' :: [a1, a2, a3, a4, a5, a6] : Str))).dropLast
              = 'a' :: ((lit "ccent = \"" ++ ('#' :: [a1, a2, a3, a4, a5, a6])) ++ ['"']) from by
            rw [show themeLine (lit "accent", ('#' :: [a1, a2, a3, a4, a5, a6] : Str))
                = ('a' :: ((lit "ccent = \"" ++ ('#' :: [a1, a2, a3, a4, a5, a6])) ++ ['"'])) ++ ['\n']
              from rfl]
            exact List.dropLast_concat]
          exact tomlStep_noop _ rfl _ 'a' _
            (pyStrip_headEnd 'a' (lit "ccent = \"" ++ ('#' :: [a1, a2, a3, a4, a5, a6])) '"'
              (by decide) (by decide)) (by decide) (by decide)
        · rw [show (themeLine (lit "primary", ('#' :: [p1, p2, p3, p4, p5, p6] : Str))).dropLast
              = 'p' :: ((lit "rimary = \"" ++ ('#' :: [p1, p2, p3, p4, p5, p6])) ++ ['"']) from by
            rw [show themeLine (lit "primary", ('#' :: [p1, p2, p3, p4, p5, p6] : Str))
                = ('p' :: ((lit "rimary = \"" ++ ('#' :: [p1, p2, p3, p4, p5, p6])) ++ ['"'])) ++ ['\n']
              from rfl]
            exact List.dropLast_concat]
          exact tomlStep_noop _ rfl _ 'p' _
            (pyStrip_headEnd 'p' (lit "rimary = \"" ++ ('#' :: [p1, p2, p3, p4, p5, p6])) '"'
              (by decide) (by decide)) (by decide) (by decide)
        · rw [show (themeLine (lit "secondary", ('#' :: [s1, s2, s3, s4, s5, s6] : Str))).dropLast
              = 's' :: ((lit "econdary = \"" ++ ('#' :: [s1, s2, s3, s4, s5, s6])) ++ ['"']) from by
            rw [show themeLine (lit "secondary", ('#' :: [s1, s2, s3, s4, s5, s6] : Str))
                = ('s' :: ((lit "econdary = \"" ++ ('#' :: [s1, s2, s3, s4, s5, s6])) ++ ['"'])) ++ ['\n']
              from rfl]
            exact List.dropLast_concat]
          exact tomlStep_noop _ rfl _ 's' _
            (pyStrip_headEnd 's' (lit "econdary = \"" ++ ('#' :: [s1, s2, s3, s4, s5, s6])) '"'
              (by decide) (by decide)) (by decide) (by decide)
        · rw [show (themeLine (lit "success", ('#' :: [u1, u2, u3, u4, u5, u6] : Str))).dropLast
              = 's' :: ((lit "uccess = \"" ++ ('#' :: [u1, u2, u3, u4, u5, u6])) ++ ['"']) from by
            rw [show themeLine (lit "success", ('#' :: [u1, u2, u3, u4, u5, u6] : Str))
                = ('s' :: ((lit "uccess = \"" ++ ('#' :: [u1, u2, u3, u4, u5, u6])) ++ ['"'])) ++ ['\n']
              from rfl]
            exact List.dropLast_concat]
          exact tomlStep_noop _ rfl _ 's' _
            (pyStrip_headEnd 's' (lit "uccess = \"" ++ ('#' :: [u1, u2, u3, u4, u5, u6])) '"'
              (by decide) (by decide)) (by decide) (by decide)
        · rw [show (themeLine (lit "warning", ('#' :: [w1, w2, w3, w4, w5, w6] : Str))).dropLast
              = 'w' :: ((lit "arning = \"" ++ ('#' :: [w1, w2, w3, w4, w5, w6])) ++ ['"']) from by
            rw [show themeLine (lit "warning", ('#' :: [w1, w2, w3, w4, w5, w6] : Str))
                = ('w' :: ((lit "arning = \"" ++ ('#' :: [w1, w2, w3, w4, w5, w6])) ++ ['"'])) ++ ['\n']
              from rfl]
            exact List.dropLast_concat]
          exact tomlStep_noop _ rfl _ 'w' _
            (pyStrip_headEnd 'w' (lit "arning = \"" ++ ('#' :: [w1, w2, w3, w4, w5, w6])) '"'
              (by decide) (by decide)) (by decide) (by decide)
        · rw [show (themeLine (lit "error", ('#' :: [e1, e2, e3, e4, e5, e6] : Str))).dropLast
              = 'e' :: ((lit "rror = \"" ++ ('#' :: [e1, e2, e3, e4, e5, e6])) ++ ['"']) from by
            rw [show themeLine (lit "error", ('#' :: [e1, e2, e3, e4, e5, e6] : Str))
                = ('e' :: ((lit "rror = \"" ++ ('#' :: [e1, e2, e3, e4, e5, e6])) ++ ['"'])) ++ ['\n']
              from rfl]
            exact List.dropLast_concat]
          exact tomlStep_noop _ rfl _ 'e' _
            (pyStrip_headEnd 'e' (lit "rror = \"" ++ ('#' :: [e1, e2, e3, e4, e5, e6])) '"'
              (by decide) (by decide)) (by decide) (by decide)
      · subst h
        rw [show (lit "background = \"" ++ ('#' :: [g1, g2, g3, g4, g5, g6]) ++ lit "\"\n").dropLast
            = 'b' :: ((lit "ackground = \"" ++ ('#' :: [g1, g2, g3, g4, g5, g6])) ++ ['"']) from by
          rw [show (lit "background = \"" ++ ('#' :: [g1, g2, g3, g4, g5, g6]) ++ lit "\"\n" : Str)
              = ('b' :: ((lit "ackground = \"" ++ ('#' :: [g1, g2, g3, g4, g5, g6])) ++ ['"'])) ++ ['\n']
            from rfl]
          exact List.dropLast_concat]
        exact tomlStep_noop _ rfl _ 'b' _
          (pyStrip_headEnd 'b' (lit "ackground = \"" ++ ('#' :: [g1, g2, g3, g4, g5, g6])) '"'
            (by decide) (by decide)) (by decide) (by decide)
      · subst h
        rw [show (lit "foreground = \"" ++ ('#' :: [f1, f2, f3, f4, f5, f6]) ++ lit "\"\n").dropLast
            = 'f' :: ((lit "oreground = \"" ++ ('#' :: [f1, f2, f3, f4, f5, f6])) ++ ['"']) from by
          rw [show (lit "foreground = \"" ++ ('#' :: [f1, f2, f3, f4, f5, f6]) ++ lit "\"\n" : Str)
              = ('f' :: ((lit "oreground = \"" ++ ('#' :: [f1, f2, f3, f4, f5, f6])) ++ ['"'])) ++ ['\n']
            from rfl]
          exact List.dropLast_concat]
        exact tomlStep_noop _ rfl _ 'f' _
          (pyStrip_headEnd 'f' (lit "oreground = \"" ++ ('#' :: [f1, f2, f3, f4, f5, f6])) '"'
            (by decide) (by decide)) (by decide) (by decide)
      · subst h; decide
    · rw [List.mem_singleton.mp hl]
      decide
  have hscan : scanToml (blockJoin CFG) = ⟨none, [], [], []⟩ := by
    unfold scanToml
    rw [hlines]
    exact foldl_const _ _ hnop
  have hparse : parse_toml_colors (blockJoin CFG) = ([], []) := by
    unfold parse_toml_colors
    rw [hscan]
    rfl
  have hchain : blockJoin CFG
      = lit "\n[theme]\nname = \"omarchy-t\"\nsource = \"omarchy\"\n\n[theme.colors]\naccent = \""
        ++ ('#' :: a1 :: a2 :: a3 :: a4 :: a5 :: a6 :: '"'
        :: (lit "\nprimary = \""
        ++ ('#' :: p1 :: p2 :: p3 :: p4 :: p5 :: p6 :: '"'
        :: (lit "\nsecondary = \""
        ++ ('#' :: s1 :: s2 :: s3 :: s4 :: s5 :: s6 :: '"'
        :: (lit "\nsuccess = \""
        ++ ('#' :: u1 :: u2 :: u3 :: u4 :: u5 :: u6 :: '"'
        :: (lit "\nwarning = \""
        ++ ('#' :: w1 :: w2 :: w3 :: w4 :: w5 :: w6 :: '"'
        :: (lit "\nerror = \""
        ++ ('#' :: e1 :: e2 :: e3 :: e4 :: e5 :: e6 :: '"'
        :: (lit "\nbackground = \""
        ++ ('#' :: g1 :: g2 :: g3 :: g4 :: g5 :: g6 :: '"'
        :: (lit "\nforeground = \""
        ++ ('#' :: f1 :: f2 :: f3 :: f4 :: f5 :: f6 :: '"'
        :: lit "\n\n"))))))))))))))) := by
    rw [hCFG]
    set_option maxRecDepth 40000 in rfl
  have hbgF : scanKV (lit "background") (blockJoin CFG) = some [g1, g2, g3, g4, g5, g6] := by
    rw [hchain]
    rw [scanBg_skip
      (lit "\n[theme]\nname = \"omarchy-t\"\nsource = \"omarchy\"\n\n[theme.colors]\naccent = \"")
      (by decide)]
    rw [scanBg_skip_hex a1 a2 a3 a4 a5 a6 ha4 ha5 ha6]
    rw [scanBg_skip (lit "\nprimary = \"") (by decide)]
    rw [scanBg_skip_hex p1 p2 p3 p4 p5 p6 hp4 hp5 hp6]
    rw [scanBg_skip (lit "\nsecondary = \"") (by decide)]
    rw [scanBg_skip_hex s1 s2 s3 s4 s5 s6 hs4 hs5 hs6]
    rw [scanBg_skip (lit "\nsuccess = \"") (by decide)]
    rw [scanBg_skip_hex u1 u2 u3 u4 u5 u6 hu4 hu5 hu6]
    rw [scanBg_skip (lit "\nwarning = \"") (by decide)]
    rw [scanBg_skip_hex w1 w2 w3 w4 w5 w6 hw4 hw5 hw6]
    rw [scanBg_skip (lit "\nerror = \"") (by decide)]
    rw [scanBg_skip_hex e1 e2 e3 e4 e5 e6 he4 he5 he6]
    exact scanBg_hit g1 g2 g3 g4 g5 g6 hg1 hg2 hg3 hg4 hg5 hg6 _
  have hfgF : scanKV (lit "foreground") (blockJoin CFG) = some [f1, f2, f3, f4, f5, f6] := by
    rw [hchain]
    rw [scanFg_skip
      (lit "\n[theme]\nname = \"omarchy-t\"\nsource = \"omarchy\"\n\n[theme.colors]\naccent = \"")
      (by decide)]
    rw [scanFg_skip_hex a1 a2 a3 a4 a5 a6 ha2 ha3 ha4 ha5 ha6]
    rw [scanFg_skip (lit "\nprimary = \"") (by decide)]
    rw [scanFg_skip_hex p1 p2 p3 p4 p5 p6 hp2 hp3 hp4 hp5 hp6]
    rw [scanFg_skip (lit "\nsecondary = \"") (by decide)]
    rw [scanFg_skip_hex s1 s2 s3 s4 s5 s6 hs2 hs3 hs4 hs5 hs6]
    rw [scanFg_skip (lit "\nsuccess = \"") (by decide)]
    rw [scanFg_skip_hex u1 u2 u3 u4 u5 u6 hu2 hu3 hu4 hu5 hu6]
    rw [scanFg_skip (lit "\nwarning = \"") (by decide)]
    rw [scanFg_skip_hex w1 w2 w3 w4 w5 w6 hw2 hw3 hw4 hw5 hw6]
    rw [scanFg_skip (lit "\nerror = \"") (by decide)]
    rw [scanFg_skip_hex e1 e2 e3 e4 e5 e6 he2 he3 he4 he5 he6]
    rw [scanFg_skip (lit "\nbackground = \"") (by decide)]
    rw [scanFg_skip_hex g1 g2 g3 g4 g5 g6 hg2 hg3 hg4 hg5 hg6]
    exact scanFg_hit f1 f2 f3 f4 f5 f6 hf1 hf2 hf3 hf4 hf5 hf6 _
  simp only [tomlResolve, hparse, hbgF, hfgF]
  rfl

/-- Witness for C8: a concrete normalized palette, re-extracted to the
grayscale roles with background and foreground preserved. -/
theorem claim_c8_witness :
    hex6 (lit "112233")
    ∧ tomlResolve (lit "t")
        (blockJoin ⟨lit "omarchy-t", lit "omarchy",
          [(lit "accent", '#' :: lit "112233"), (lit "primary", '#' :: lit "213243"),
           (lit "secondary", '#' :: lit "314253"), (lit "success", '#' :: lit "415263"),
           (lit "warning", '#' :: lit "516273"), (lit "error", '#' :: lit "617283")],
          '#' :: lit "718293", '#' :: lit "8192a3"⟩)
        = ⟨lit "t", grayPairs, '#' :: lit "718293", '#' :: lit "8192a3"⟩ :=
  ⟨by decide,
   claim_c8 (lit "112233") (lit "213243") (lit "314253") (lit "415263") (lit "516273")
     (lit "617283") (lit "718293") (lit "8192a3")
     (by decide) (by decide) (by decide) (by decide) (by decide) (by decide)
     (by decide) (by decide)⟩

/-- Counterexample to C8 as stated: for a concrete normalized palette the
re-extracted accent role is the grayscale constant, not the serialized
accent value. -/
theorem claim_c8_counterexample :
    alook (tomlResolve (lit "t") (blockJoin c8Cfg)).colors (lit "accent") = some (lit "#777777")
    ∧ alook c8Cfg.colors (lit "accent") = some (lit "#112233")
    ∧ (lit "#777777" : Str) ≠ lit "#112233" := by
  refine ⟨by decide, by decide, by decide⟩

/-- Witness for C10: the empty-object descriptor, with a line-oriented file
present that is provably ignored. -/
theorem claim_c10_witness :
    jsonPath (lit "t") (JVal.obj []) = .ok ⟨lit "t", [], lit "#000000", lit "#ffffff"⟩
    ∧ extract_theme_colors (lit "t") (some (some (JVal.obj []))) (some c3Toml) =
        .ok (some ⟨lit "t", [], lit "#000000", lit "#ffffff"⟩) :=
  ⟨claim_c10.2 (lit "t") (JVal.obj []) (by decide) (by decide) (by decide),
   claim_c10.1 (lit "t") (JVal.obj []) _ (some c3Toml) (by decide)⟩

end Navitone
